import Mathlib

/-!
# Ordered registration of proto files (cmd/proto_parser.go, cmd/proto_register.go)

A shallow embedding of `ParseProtoFiles` and `RegisterProtoArtifacts`.

* Go strings are Lean `String`s; the `strings` functions used by the program are
  defined on the character lists.
* Go maps are association lists with unique keys kept by `GoMap.set`; the order in
  which `range` yields the entries is an input (`MapRange`).
* The file system (`filepath.WalkDir`, `filepath.Rel`, `os.Open` with
  `bufio.Scanner`, `os.ReadFile`) and the registry client (`CreateArtifact`,
  `GetArtifactMetadata`) are collaborators outside the repository: they are
  parameters of the embedding. A Go `error` is `Option String`, the text of
  `err.Error()`, `none` being `nil`.
* The recursive closure `visit` carries a fuel counter; `visit_spec` shows that the
  fuel handed over by `topoSort` is always enough.
-/

namespace ProtoRegistry

/-! ## The `strings` package -/

/-- Go `strings.HasSuffix`. -/
def HasSuffix (s suffix : String) : Bool :=
  suffix.data.isSuffixOf s.data

/-- Go `strings.TrimSuffix`: `s` without the trailing `suffix`, or `s` itself. -/
def TrimSuffix (s suffix : String) : String :=
  if HasSuffix s suffix then ⟨s.data.take (s.data.length - suffix.data.length)⟩ else s

/-- Left-to-right replacement of the non-overlapping occurrences of a non-empty `old`;
`skip` counts the characters of an occurrence that are still to be dropped. -/
def replaceChars (old new : List Char) : Nat → List Char → List Char
  | _, [] => []
  | skip + 1, _ :: cs => replaceChars old new skip cs
  | 0, c :: cs =>
    if old.isPrefixOf (c :: cs) then new ++ replaceChars old new (old.length - 1) cs
    else c :: replaceChars old new 0 cs

/-- Go `strings.ReplaceAll`. An empty `old` matches before every character and at the end. -/
def ReplaceAll (s old new : String) : String :=
  if old.data.isEmpty then ⟨new.data ++ (s.data.map (fun c => c :: new.data)).flatten⟩
  else ⟨replaceChars old.data new.data 0 s.data⟩

/-- Whether `sub` occurs in the character list. -/
def containsChars (sub : List Char) : List Char → Bool
  | [] => sub.isEmpty
  | c :: cs => sub.isPrefixOf (c :: cs) || containsChars sub cs

/-- Go `strings.Contains`. -/
def Contains (s substr : String) : Bool :=
  containsChars substr.data s.data

/-- Go `unicode.IsSpace`: the characters with the Unicode White_Space property. -/
def isSpace (c : Char) : Bool :=
  let n := c.toNat
  (9 ≤ n && n ≤ 13) || n = 32 || n = 0x85 || n = 0xA0 || n = 0x1680 ||
  (0x2000 ≤ n && n ≤ 0x200a) || n = 0x2028 || n = 0x2029 || n = 0x202f ||
  n = 0x205f || n = 0x3000

/-- Go `strings.TrimSpace`. -/
def TrimSpace (s : String) : String :=
  ⟨((s.data.dropWhile isSpace).reverse.dropWhile isSpace).reverse⟩

/-! ## `importRegex` -/

/-- The double quote character. -/
def dquote : Char := Char.ofNat 34

/-- The class `\s` of Go regular expressions: tab, newline, form feed, carriage return, space. -/
def isRegexSpace (c : Char) : Bool :=
  c = Char.ofNat 9 || c = Char.ofNat 10 || c = Char.ofNat 12 || c = Char.ofNat 13 || c = ' '

/-- The class `[^"]`. -/
def notQuote (c : Char) : Bool := !(c = dquote)

/-- Matching of `^import\s+"([^"]+)";` against the text, giving capture group 1. The match
is anchored at the start only. `\s+` is followed by a quote, which is no space, and
`[^"]+` is followed by a quote, so either repetition takes the longest run. -/
def importRegexMatch (s : List Char) : Option (List Char) :=
  if "import".data.isPrefixOf s then
    let r1 := s.drop 6
    if (r1.takeWhile isRegexSpace).isEmpty then none
    else
      match r1.dropWhile isRegexSpace with
      | q :: r2 =>
        if q = dquote then
          if (r2.takeWhile notQuote).isEmpty then none
          else
            match r2.dropWhile notQuote with
            | q2 :: semi :: _ =>
              if q2 = dquote ∧ semi = ';' then some (r2.takeWhile notQuote) else none
            | _ => none
        else none
      | [] => none
  else none

/-- The source's `importRegex.FindStringSubmatch(s)` reduced to what the program reads of it:
`some matches[1]` when `len(matches) > 1`, `none` otherwise. -/
def FindStringSubmatch (s : String) : Option String :=
  (importRegexMatch s.data).map String.mk

/-! ## Go maps -/

/-- A Go `map[string]β`. -/
abbrev GoMap (β : Type) := List (String × β)

/-- The lookup `v, exists := m[key]`. -/
def GoMap.get? {β : Type} : GoMap β → String → Option β
  | [], _ => none
  | (k, v) :: rest, key => if k = key then some v else GoMap.get? rest key

/-- The assignment `m[key] = val`. -/
def GoMap.set {β : Type} : GoMap β → String → β → GoMap β
  | [], key, val => [(key, val)]
  | (k, v) :: rest, key, val =>
    if k = key then (k, val) :: rest else (k, v) :: GoMap.set rest key val

/-- The values stored in a map. -/
def GoMap.values {β : Type} (m : GoMap β) : List β := m.map Prod.snd

/-- The order in which a `range` statement yields the entries of a map: some permutation,
chosen by the runtime. -/
structure MapRange where
  order : GoMap String → GoMap String
  perm : ∀ m, List.Perm (order m) m

/-- The read `fileToImports[path]`, the empty slice for a missing key. -/
def importsOf (fileToImports : GoMap (List String)) (path : String) : List String :=
  (fileToImports.get? path).getD []

/-! ## The file system -/

/-- The `os.DirEntry` handed to the walk callback. -/
structure DirEntry where
  Name : String
  IsDir : Bool
deriving DecidableEq

/-- One invocation of the `filepath.WalkDir` callback. -/
structure WalkStep where
  path : String
  d : DirEntry
  err : Option String
deriving DecidableEq

/-- What `bufio.Scanner` yields for an opened file: the lines, then `scanner.Err()`. -/
structure ScanOutput where
  lines : List String
  err : Option String
deriving DecidableEq

/-- The file system as the program observes it. `WalkDir root` is the sequence of callback
invocations of a walk that is never cut short by the callback. -/
structure FileSystem where
  WalkDir : String → List WalkStep
  Rel : String → String → Except String String
  Open : String → Except String ScanOutput
  ReadFile : String → Except String String

/-! ## `ParseProtoFiles` -/

/-- The two maps filled by the walk. -/
structure ScanState where
  importToPath : GoMap String
  fileToImports : GoMap (List String)
deriving DecidableEq

/-- The scanner loop of the callback: one append to `fileToImports[path]` per matching line. -/
def scanLines (path : String) : List String → GoMap (List String) → GoMap (List String)
  | [], fileToImports => fileToImports
  | line :: rest, fileToImports =>
    match FindStringSubmatch (TrimSpace line) with
    | some imp => scanLines path rest (fileToImports.set path (importsOf fileToImports path ++ [imp]))
    | none => scanLines path rest fileToImports

/-- The callback passed to `filepath.WalkDir`. The value stored in `importToPath` is the path
as the walk hands it over, which carries the root as it was given. -/
def walkFn (fs : FileSystem) (protoRoot : String) (st : ScanState) (w : WalkStep) :
    Except String ScanState :=
  match w.err with
  | some e => .error e
  | none =>
    if w.d.IsDir || !HasSuffix w.d.Name ".proto" then .ok st
    else
      match fs.Rel protoRoot w.path with
      | .error e => .error ("failed to get relative path for " ++ w.path ++ ": " ++ e)
      | .ok relPath =>
        match fs.Open w.path with
        | .error e => .error ("failed to open file " ++ w.path ++ ": " ++ e)
        | .ok out =>
          match out.err with
          | some e => .error ("failed to scan file " ++ w.path ++ ": " ++ e)
          | none =>
            .ok { importToPath := st.importToPath.set relPath w.path
                  fileToImports := scanLines w.path out.lines st.fileToImports }

/-- The walk: the callback on every step, stopping at the first error. -/
def walkAll (fs : FileSystem) (protoRoot : String) : List WalkStep → ScanState → Except String ScanState
  | [], st => .ok st
  | w :: rest, st =>
    match walkFn fs protoRoot st w with
    | .error e => .error e
    | .ok st1 => walkAll fs protoRoot rest st1

/-- The first half of `ParseProtoFiles`: the maps, or the error of the walk. -/
def scanProtoFiles (fs : FileSystem) (protoRoot : String) : Except String ScanState :=
  match walkAll fs protoRoot (fs.WalkDir protoRoot) ⟨[], []⟩ with
  | .error e => .error ("failed to scan proto directory: " ++ e)
  | .ok st => .ok st

/-- The variables captured by the closure `visit`: the `visited` set and `sortedFiles`. -/
structure SortState where
  visited : List String
  sortedFiles : List String
deriving DecidableEq

/-- The loop `for _, imp := range fileToImports[path]` inside `visit`. -/
def visitImports (importToPath : GoMap String) (visit : String → SortState → Option SortState) :
    List String → SortState → Option SortState
  | [], st => some st
  | imp :: rest, st =>
    match importToPath.get? imp with
    | some fullPath =>
      match visit fullPath st with
      | some st1 => visitImports importToPath visit rest st1
      | none => none
    | none => visitImports importToPath visit rest st

/-- The closure `visit`. `none` stands for a recursion deeper than the fuel. -/
def visit (importToPath : GoMap String) (fileToImports : GoMap (List String)) :
    Nat → String → SortState → Option SortState
  | 0, _, _ => none
  | fuel + 1, path, st =>
    if path ∈ st.visited then some st
    else
      match visitImports importToPath (visit importToPath fileToImports fuel)
          (importsOf fileToImports path) { st with visited := path :: st.visited } with
      | some st1 => some { st1 with sortedFiles := st1.sortedFiles ++ [path] }
      | none => none

/-- The loop `for _, path := range importToPath { visit(path) }` over the yielded paths. -/
def visitAll (visit : String → SortState → Option SortState) :
    List String → SortState → Option SortState
  | [], st => some st
  | path :: rest, st =>
    match visit path st with
    | some st1 => visitAll visit rest st1
    | none => none

/-- The topological sort of `ParseProtoFiles`, the paths being yielded in the order `starts`. -/
def topoSort (importToPath : GoMap String) (fileToImports : GoMap (List String))
    (starts : List String) : Option (List String) :=
  (visitAll (visit importToPath fileToImports (importToPath.length + 1)) starts ⟨[], []⟩).map
    SortState.sortedFiles

/-- The values returned by a successful `ParseProtoFiles`. -/
structure ParseResult where
  importToPath : GoMap String
  fileToImports : GoMap (List String)
  sortedFiles : List String
deriving DecidableEq

/-- `ParseProtoFiles`. The outer `none` stands for a traversal that does not return. -/
def ParseProtoFiles (fs : FileSystem) (range : MapRange) (protoRoot : String) :
    Option (Except String ParseResult) :=
  match scanProtoFiles fs protoRoot with
  | .error e => some (.error e)
  | .ok st =>
    match topoSort st.importToPath st.fileToImports (range.order st.importToPath).values with
    | some sortedFiles => some (.ok ⟨st.importToPath, st.fileToImports, sortedFiles⟩)
    | none => none

/-! ## `RegisterProtoArtifacts` -/

/-- The fields of `models.ArtifactReference` set by the program. -/
structure ArtifactReference where
  Name : String
  ArtifactID : String
  GroupID : String
  Version : String
deriving DecidableEq

/-- The fields of `models.CreateContentRequest` set by the program. -/
structure CreateContentRequest where
  Content : String
  ContentType : String
  References : List ArtifactReference
deriving DecidableEq

/-- The fields of `models.CreateVersionRequest` set by the program. -/
structure CreateVersionRequest where
  Content : CreateContentRequest
deriving DecidableEq

/-- The fields of `models.CreateArtifactRequest` set by the program. -/
structure CreateArtifactRequest where
  ArtifactID : String
  ArtifactType : String
  FirstVersion : CreateVersionRequest
deriving DecidableEq

/-- The two registry services the program calls, as transitions of a registry state. -/
structure Registry (σ : Type) where
  CreateArtifact : σ → String → CreateArtifactRequest → σ × Option String
  GetArtifactMetadata : σ → String → String → σ × Option String

/-- A registry call together with the error it returned. -/
inductive Call where
  | createArtifact (groupID : String) (req : CreateArtifactRequest) (err : Option String)
  | getArtifactMetadata (groupID : String) (artifactID : String) (err : Option String)
deriving DecidableEq

/-- The outcome of a run: the registry state, the calls made, the returned error. -/
structure RunResult (σ : Type) where
  state : σ
  calls : List Call
  err : Option String

/-- Go `filepath.Separator` on the systems where import paths and file paths agree. -/
def Separator : Char := '/'

/-- The identifier `artifactID` computed from `relPath`. -/
def artifactIDOf (relPath : String) : String :=
  ReplaceAll (TrimSuffix relPath ".proto") (String.singleton Separator) "-"

/-- The identifier `refID` computed from an import string. -/
def refIDOf (imp : String) : String :=
  ReplaceAll (TrimSuffix imp ".proto") "/" "-"

/-- The loop that fills `artifactRefs`. -/
def buildRefs (importToPath : GoMap String) :
    List String → List ArtifactReference → List ArtifactReference
  | [], artifactRefs => artifactRefs
  | imp :: rest, artifactRefs =>
    match importToPath.get? imp with
    | some _ =>
      buildRefs importToPath rest
        (artifactRefs ++ [{ Name := imp, ArtifactID := refIDOf imp, GroupID := "default", Version := "1" }])
    | none => buildRefs importToPath rest artifactRefs

/-- The value `relPath, _ := filepath.Rel(protoRoot, path)`: the empty string on an error. -/
def relPathOf (fs : FileSystem) (protoRoot path : String) : String :=
  match fs.Rel protoRoot path with
  | .ok relPath => relPath
  | .error _ => ""

/-- The request `createReq` built for a file. -/
def createReq (fs : FileSystem) (protoRoot : String) (importToPath : GoMap String)
    (fileToImports : GoMap (List String)) (path content : String) : CreateArtifactRequest :=
  { ArtifactID := artifactIDOf (relPathOf fs protoRoot path)
    ArtifactType := "PROTOBUF"
    FirstVersion :=
      { Content :=
          { Content := content
            ContentType := "application/x-protobuffer"
            References := buildRefs importToPath (importsOf fileToImports path) [] } } }

/-- The constant `maxRetriesVerify`. -/
def maxRetriesVerify : Nat := 5

/-- The verification loop with `n` iterations left; the last component is `verifyErr`. -/
def verifyLoop {σ : Type} (reg : Registry σ) (artifactID : String) :
    Nat → σ → Option String → σ × List Call × Option String
  | 0, s, verifyErr => (s, [], verifyErr)
  | n + 1, s, _ =>
    match reg.GetArtifactMetadata s "default" artifactID with
    | (s1, none) => (s1, [Call.getArtifactMetadata "default" artifactID none], none)
    | (s1, some e) =>
      match verifyLoop reg artifactID n s1 (some e) with
      | (s2, calls, verifyErr) =>
        (s2, Call.getArtifactMetadata "default" artifactID (some e) :: calls, verifyErr)

/-- The body of the loop over `sortedFiles`; `err` is the error returned from inside it. -/
def registerFile {σ : Type} (reg : Registry σ) (fs : FileSystem) (protoRoot : String)
    (importToPath : GoMap String) (fileToImports : GoMap (List String)) (path : String) (s : σ) :
    RunResult σ :=
  match fs.ReadFile path with
  | .error e => ⟨s, [], some ("failed to read proto file " ++ path ++ ": " ++ e)⟩
  | .ok content =>
    let artifactID := artifactIDOf (relPathOf fs protoRoot path)
    let req := createReq fs protoRoot importToPath fileToImports path content
    match reg.CreateArtifact s "default" req with
    | (s1, err) =>
      let created := Call.createArtifact "default" req err
      match err.filter (fun e => !Contains e "409") with
      | some e => ⟨s1, [created], some ("failed to register " ++ artifactID ++ ": " ++ e)⟩
      | none =>
        match verifyLoop reg artifactID maxRetriesVerify s1 none with
        | (s2, calls, some e) =>
          ⟨s2, created :: calls,
            some ("failed to verify registration of " ++ artifactID ++ " after retries: " ++ e)⟩
        | (s2, calls, none) => ⟨s2, created :: calls, none⟩

/-- The loop `for _, path := range sortedFiles`. -/
def registerFiles {σ : Type} (reg : Registry σ) (fs : FileSystem) (protoRoot : String)
    (importToPath : GoMap String) (fileToImports : GoMap (List String)) :
    List String → σ → RunResult σ
  | [], s => ⟨s, [], none⟩
  | path :: rest, s =>
    match registerFile reg fs protoRoot importToPath fileToImports path s with
    | ⟨s1, calls, some e⟩ => ⟨s1, calls, some e⟩
    | ⟨s1, calls, none⟩ =>
      match registerFiles reg fs protoRoot importToPath fileToImports rest s1 with
      | ⟨s2, calls2, err⟩ => ⟨s2, calls ++ calls2, err⟩

/-- `RegisterProtoArtifacts`, run from the registry state `s`. `apiClient` is the result of
`client.NewClient(addr)`; the outer `none` stands for a run that does not return. -/
def RegisterProtoArtifacts {σ : Type} (apiClient : Option (Registry σ)) (fs : FileSystem)
    (range : MapRange) (protoRoot : String) (s : σ) : Option (RunResult σ) :=
  match apiClient with
  | none => some ⟨s, [], some "apiClient failed to initialize"⟩
  | some reg =>
    match ParseProtoFiles fs range protoRoot with
    | none => none
    | some (.error e) => some ⟨s, [], some ("failed to parse proto files: " ++ e)⟩
    | some (.ok parsed) =>
      some (registerFiles reg fs protoRoot parsed.importToPath parsed.fileToImports
        parsed.sortedFiles s)

/-! ## Predicates of the ordering claims -/

/-- A locally resolvable import edge: `F` declares an import key that `importToPath` maps to `G`. -/
def Edge (importToPath : GoMap String) (fileToImports : GoMap (List String)) (F G : String) : Prop :=
  ∃ K, K ∈ importsOf fileToImports F ∧ importToPath.get? K = some G

/-- The locally resolvable import edges form no cycle. -/
def Acyclic (importToPath : GoMap String) (fileToImports : GoMap (List String)) : Prop :=
  ∀ F, ¬ Relation.TransGen (Edge importToPath fileToImports) F F

/-- In `order`, an occurrence of `G` stands strictly before an occurrence of `F`. -/
def Before (order : List String) (G F : String) : Prop :=
  ∃ l1 l2 l3, order = l1 ++ G :: (l2 ++ F :: l3)

/-- Every file of `order` comes after each of its resolvable imports. -/
def ImportsFirst (importToPath : GoMap String) (fileToImports : GoMap (List String))
    (order : List String) : Prop :=
  ∀ F, F ∈ order → ∀ G, Edge importToPath fileToImports F G → Before order G F

/-- The number of scanned paths not yet marked in `visited`. -/
def unvisited (importToPath : GoMap String) (visited : List String) : Nat :=
  (importToPath.values.toFinset \ visited.toFinset).card

/-- What a call of `visit`, or a loop of such calls, on the paths `targets` does to the state. -/
structure VisitPost (importToPath : GoMap String) (fileToImports : GoMap (List String))
    (st st1 : SortState) (targets : List String) : Prop where
  appended : ∃ new, st1.sortedFiles = st.sortedFiles ++ new ∧
    (∀ x, x ∈ st1.visited ↔ x ∈ st.visited ∨ x ∈ new) ∧ new.Nodup ∧
    (∀ x, x ∈ new → x ∉ st.visited) ∧ (∀ x, x ∈ new → x ∈ importToPath.values)
  marked : ∀ x, x ∈ targets → x ∈ st1.visited
  ordered : Acyclic importToPath fileToImports →
    (∀ x, x ∈ st.visited → x ∉ st.sortedFiles → ∀ t, t ∈ targets →
      Relation.ReflTransGen (Edge importToPath fileToImports) x t) →
    (∀ x, x ∈ st.sortedFiles → x ∈ st.visited) →
    ImportsFirst importToPath fileToImports st.sortedFiles →
    ImportsFirst importToPath fileToImports st1.sortedFiles

/-! ## The line form of the specification -/

/-- The form the specification words for an import line: the text is exactly the keyword
`import`, one space, a quoted non-empty path without a quote in it, and the semicolon. The
result is that path. -/
def specImportLine (t : String) : Option String :=
  let opening := "import ".data ++ [dquote]
  let body := t.data.drop opening.length
  let path := body.take (body.length - 2)
  if opening.isPrefixOf t.data ∧ [dquote, ';'].isSuffixOf body ∧ ¬ path.isEmpty ∧ dquote ∉ path then
    some ⟨path⟩
  else none

/-- The text `import "a.proto"; // base types`. -/
def commentedImportLine : String :=
  "import " ++ String.singleton dquote ++ "a.proto" ++ String.singleton dquote ++ "; // base types"

/-! ## Predicates of the registration claims -/

/-- The identifier as the specification words it: the relative path or import string with the
`.proto` suffix stripped and every `/` replaced by `-`. -/
def specIdentifier (key : String) : String :=
  let stem :=
    if ".proto".data.isSuffixOf key.data then (key.data.reverse.drop 6).reverse else key.data
  ⟨stem.map (fun c => if c = '/' then '-' else c)⟩

/-- A conflict as the specification words it: the registry's "conflict / already exists"
response, the one with status 409. The status of an error is the number its text starts with,
as in `409 Conflict: artifact already exists`. -/
def specConflict (e : String) : Bool :=
  decide (e.data.takeWhile Char.isDigit = "409".data)

/-- The reference list as the specification words it: the declared imports that are keys of
`importToPath`, in declaration order, each turned into a reference to version "1" of the
artifact derived from the import string, in group "default". -/
def specReferences (importToPath : GoMap String) (imports : List String) : List ArtifactReference :=
  (imports.filter (fun imp => (importToPath.get? imp).isSome)).map
    (fun imp => { Name := imp, ArtifactID := refIDOf imp, GroupID := "default", Version := "1" })

/-- The registry state before polling attempt number `k + 1` for `artifactID`, the earlier
attempts having failed. -/
def pollState {σ : Type} (reg : Registry σ) (artifactID : String) : Nat → σ → σ
  | 0, s => s
  | k + 1, s => pollState reg artifactID k (reg.GetArtifactMetadata s "default" artifactID).1

/-- In a sequence of registry calls, every reference carried by a `createArtifact` request was
confirmed by an earlier successful `getArtifactMetadata` call. -/
def RefsConfirmed (calls : List Call) : Prop :=
  ∀ pre groupID req err post, calls = pre ++ Call.createArtifact groupID req err :: post →
    ∀ r, r ∈ req.FirstVersion.Content.References →
      Call.getArtifactMetadata r.GroupID r.ArtifactID none ∈ pre

/-- The check of `RefsConfirmed` along a sequence of calls, `seen` being the calls before it. -/
def refsOk : List Call → List Call → Bool
  | _, [] => true
  | seen, c :: cs =>
    (match c with
      | Call.createArtifact _ req _ =>
        req.FirstVersion.Content.References.all
          (fun r => decide (Call.getArtifactMetadata r.GroupID r.ArtifactID none ∈ seen))
      | Call.getArtifactMetadata _ _ _ => true) && refsOk (seen ++ [c]) cs

/-- A registry as the idempotence claim assumes it. `contents` is what the registry holds and
`present` tells which identifiers exist in it. Creating an existing identifier returns a
conflict and changes nothing, reading an existing identifier succeeds and changes nothing, a
successful read shows the identifier to exist, and no call removes an identifier. -/
structure IdempotentRegistry {σ κ : Type} (reg : Registry σ) (contents : σ → κ)
    (present : κ → String → Prop) : Prop where
  create_existing : ∀ s req, present (contents s) req.ArtifactID →
    (∃ e, (reg.CreateArtifact s "default" req).2 = some e ∧ Contains e "409" = true) ∧
      contents (reg.CreateArtifact s "default" req).1 = contents s
  get_existing : ∀ s artifactID, present (contents s) artifactID →
    (reg.GetArtifactMetadata s "default" artifactID).2 = none ∧
      contents (reg.GetArtifactMetadata s "default" artifactID).1 = contents s
  get_shows : ∀ s artifactID, (reg.GetArtifactMetadata s "default" artifactID).2 = none →
    present (contents (reg.GetArtifactMetadata s "default" artifactID).1) artifactID
  create_keeps : ∀ s req artifactID, present (contents s) artifactID →
    present (contents (reg.CreateArtifact s "default" req).1) artifactID
  get_keeps : ∀ s other artifactID, present (contents s) artifactID →
    present (contents (reg.GetArtifactMetadata s "default" other).1) artifactID

/-! ## Example collaborators -/

/-- The line `import "<p>";`. -/
def importLine (p : String) : String :=
  "import " ++ String.singleton dquote ++ p ++ String.singleton dquote ++ ";"

/-- A file system whose root holds the listed files (name, lines) and no directory. -/
def flatTree (files : List (String × List String)) : FileSystem where
  WalkDir := fun root =>
    ⟨root, ⟨"r", true⟩, none⟩ :: files.map (fun f => ⟨root ++ "/" ++ f.1, ⟨f.1, false⟩, none⟩)
  Rel := fun root p =>
    if (root ++ "/").data.isPrefixOf p.data then .ok ⟨p.data.drop (root.data.length + 1)⟩
    else .error "Rel: can't make path relative"
  Open := fun p =>
    match files.find? (fun f => "/r/" ++ f.1 = p) with
    | some f => .ok ⟨f.2, none⟩
    | none => .error "open: no such file or directory"
  ReadFile := fun p =>
    match files.find? (fun f => "/r/" ++ f.1 = p) with
    | some f => .ok (f.2.foldl (fun acc line => acc ++ line ++ "\n") "")
    | none => .error "open: no such file or directory"

/-- The tree of the specification's scenario: `base.proto` and `child.proto` importing it. -/
def baseChildTree : FileSystem :=
  flatTree [("base.proto", ["syntax = proto3;"]), ("child.proto", [importLine "base.proto"])]

/-- A tree in which `a.proto` and `b.proto` import each other. -/
def cycleTree : FileSystem :=
  flatTree [("a.proto", [importLine "b.proto"]), ("b.proto", [importLine "a.proto"])]

/-- The `range` order that yields the entries as stored. -/
def storedOrder : MapRange := ⟨fun m => m, fun m => List.Perm.refl m⟩

/-- The `range` order that yields the entries last to first. -/
def reversedOrder : MapRange := ⟨fun m => m.reverse, fun m => List.reverse_perm m⟩

/-- A registry holding a list of identifiers: creation of a held identifier is a conflict, a
read succeeds for the held identifiers. -/
def memRegistry : Registry (List String) where
  CreateArtifact := fun s _ req =>
    if req.ArtifactID ∈ s then (s, some "409 Conflict: artifact already exists")
    else (s ++ [req.ArtifactID], none)
  GetArtifactMetadata := fun s _ artifactID =>
    if artifactID ∈ s then (s, none) else (s, some "404 Not Found")

/-- A registry that rejects every creation with a server error. -/
def brokenRegistry : Registry (List String) where
  CreateArtifact := fun s _ _ => (s, some "500 Internal Server Error")
  GetArtifactMetadata := fun s _ _ => (s, some "404 Not Found")

/-- A registry that accepts every creation and never shows an artifact. -/
def blindRegistry : Registry (List String) where
  CreateArtifact := fun s _ req => (s ++ [req.ArtifactID], none)
  GetArtifactMetadata := fun s _ _ => (s, some "404 Not Found")

/-- A registry whose creations fail with a server error that quotes a trace number, and whose
reads succeed. -/
def tracedRegistry : Registry (List String) where
  CreateArtifact := fun s _ _ => (s, some "500 Internal Server Error (trace 14093)")
  GetArtifactMetadata := fun s _ _ => (s, none)

/-! ## Example inputs -/

/-- The scan of a root holding `base.proto` and `child.proto`, the latter importing the former. -/
def baseChildPaths : GoMap String :=
  [("base.proto", "/r/base.proto"), ("child.proto", "/r/child.proto")]

/-- The imports of the `base.proto` / `child.proto` tree. -/
def baseChildImports : GoMap (List String) :=
  [("/r/child.proto", ["base.proto"])]

/-- The scan of a root holding `a.proto` and `b.proto`, which import each other, and
`c.proto`, which imports itself. -/
def cyclePaths : GoMap String :=
  [("a.proto", "/r/a.proto"), ("b.proto", "/r/b.proto"), ("c.proto", "/r/c.proto")]

/-- The imports of the tree with cycles. -/
def cycleImports : GoMap (List String) :=
  [("/r/a.proto", ["b.proto"]), ("/r/b.proto", ["a.proto"]), ("/r/c.proto", ["c.proto"])]

/-- The request the program builds for `child.proto` of `baseChildTree`. -/
def childRequest : CreateArtifactRequest :=
  { ArtifactID := "child"
    ArtifactType := "PROTOBUF"
    FirstVersion :=
      { Content :=
          { Content := importLine "base.proto" ++ "\n"
            ContentType := "application/x-protobuffer"
            References :=
              [{ Name := "base.proto", ArtifactID := "base", GroupID := "default", Version := "1" }] } } }

/-- The request the program builds for `base.proto` of `baseChildTree`. -/
def baseRequest : CreateArtifactRequest :=
  { ArtifactID := "base"
    ArtifactType := "PROTOBUF"
    FirstVersion :=
      { Content :=
          { Content := "syntax = proto3;\n"
            ContentType := "application/x-protobuffer"
            References := [] } } }

/-- The files of a tree with two directories: `level6/msg6.proto` imports
`level5/msg5.proto`. -/
def nestedFiles : List (String × List String) :=
  [("level5/msg5.proto", ["syntax = proto3;"]),
    ("level6/msg6.proto", [importLine "level5/msg5.proto"])]

/-- The tree of `nestedFiles`, walked in lexical order, directories included. -/
def nestedTree : FileSystem :=
  { flatTree nestedFiles with
    WalkDir := fun root =>
      [⟨root, ⟨"r", true⟩, none⟩,
        ⟨root ++ "/level5", ⟨"level5", true⟩, none⟩,
        ⟨root ++ "/level5/msg5.proto", ⟨"msg5.proto", false⟩, none⟩,
        ⟨root ++ "/level6", ⟨"level6", true⟩, none⟩,
        ⟨root ++ "/level6/msg6.proto", ⟨"msg6.proto", false⟩, none⟩] }

/-- The scan of `nestedTree`. -/
def nestedPaths : GoMap String :=
  [("level5/msg5.proto", "/r/level5/msg5.proto"), ("level6/msg6.proto", "/r/level6/msg6.proto")]

/-- The imports of `nestedTree`. -/
def nestedImports : GoMap (List String) :=
  [("/r/level6/msg6.proto", ["level5/msg5.proto"])]

/-- The request the program builds for `level6/msg6.proto` of `nestedTree`. -/
def msg6Request : CreateArtifactRequest :=
  { ArtifactID := "level6-msg6"
    ArtifactType := "PROTOBUF"
    FirstVersion :=
      { Content :=
          { Content := importLine "level5/msg5.proto" ++ "\n"
            ContentType := "application/x-protobuffer"
            References :=
              [{ Name := "level5/msg5.proto", ArtifactID := "level5-msg5", GroupID := "default",
                 Version := "1" }] } } }

/-- The request the program builds for `b.proto` of `cycleTree`: it refers to `a`. -/
def cycleFirstRequest : CreateArtifactRequest :=
  { ArtifactID := "b"
    ArtifactType := "PROTOBUF"
    FirstVersion :=
      { Content :=
          { Content := importLine "a.proto" ++ "\n"
            ContentType := "application/x-protobuffer"
            References :=
              [{ Name := "a.proto", ArtifactID := "a", GroupID := "default", Version := "1" }] } } }

/-! ## Facts about maps -/

theorem GoMap.get?_mem_values {β : Type} (m : GoMap β) (k : String) (v : β)
    (h : m.get? k = some v) : v ∈ m.values := by
  induction m with
  | nil => simp [GoMap.get?] at h
  | cons kv rest ih =>
    obtain ⟨k0, v0⟩ := kv
    simp only [GoMap.get?] at h
    by_cases hk : k0 = k
    · simp only [hk, if_true, Option.some.injEq] at h
      simp [GoMap.values, h]
    · simp only [hk, if_false] at h
      have := ih h
      simp only [GoMap.values, List.map_cons, List.mem_cons] at this ⊢
      exact Or.inr this

theorem unvisited_le_length (importToPath : GoMap String) (V : List String) :
    unvisited importToPath V ≤ importToPath.length := by
  unfold unvisited
  calc (importToPath.values.toFinset \ V.toFinset).card
      ≤ importToPath.values.toFinset.card := Finset.card_le_card Finset.sdiff_subset
    _ ≤ importToPath.values.length := List.toFinset_card_le _
    _ = importToPath.length := by simp [GoMap.values]

theorem unvisited_mono (importToPath : GoMap String) (V V1 : List String)
    (h : ∀ x, x ∈ V → x ∈ V1) : unvisited importToPath V1 ≤ unvisited importToPath V := by
  unfold unvisited
  apply Finset.card_le_card
  intro x hx
  simp only [Finset.mem_sdiff, List.mem_toFinset] at hx ⊢
  exact ⟨hx.1, fun hv => hx.2 (h x hv)⟩

theorem unvisited_cons_lt (importToPath : GoMap String) (V : List String) (path : String)
    (hp : path ∈ importToPath.values) (hv : path ∉ V) :
    unvisited importToPath (path :: V) < unvisited importToPath V := by
  unfold unvisited
  apply Finset.card_lt_card
  rw [Finset.ssubset_iff_of_subset]
  · exact ⟨path, by simp [hp, hv], by simp⟩
  · intro x hx
    simp only [Finset.mem_sdiff, List.mem_toFinset, List.mem_cons, not_or] at hx ⊢
    exact ⟨hx.1, hx.2.2⟩

/-! ## The traversal -/

theorem Before.append {order : List String} {G F : String} (h : Before order G F)
    (more : List String) : Before (order ++ more) G F := by
  obtain ⟨l1, l2, l3, rfl⟩ := h
  exact ⟨l1, l2, l3 ++ more, by simp⟩

theorem ImportsFirst.nil (importToPath : GoMap String) (fileToImports : GoMap (List String)) :
    ImportsFirst importToPath fileToImports [] := by
  intro F hF
  simp at hF

theorem visitImports_eq_visitAll (importToPath : GoMap String)
    (f : String → SortState → Option SortState) (imps : List String) (st : SortState) :
    visitImports importToPath f imps st = visitAll f (imps.filterMap importToPath.get?) st := by
  induction imps generalizing st with
  | nil => rfl
  | cons imp rest ih =>
    cases h : importToPath.get? imp with
    | none => simp [visitImports, h, ih]
    | some fullPath =>
      simp only [visitImports, h, List.filterMap_cons, visitAll]
      cases f fullPath st with
      | none => rfl
      | some st1 => exact ih st1

theorem VisitPost.refl (importToPath : GoMap String) (fileToImports : GoMap (List String))
    (st : SortState) (targets : List String) (h : ∀ x, x ∈ targets → x ∈ st.visited) :
    VisitPost importToPath fileToImports st st targets where
  appended := ⟨[], by simp⟩
  marked := h
  ordered := fun _ _ _ hg => hg

theorem VisitPost.seq (importToPath : GoMap String) (fileToImports : GoMap (List String))
    (st st1 st2 : SortState) (p : String) (rest : List String)
    (h1 : VisitPost importToPath fileToImports st st1 [p])
    (h2 : VisitPost importToPath fileToImports st1 st2 rest) :
    VisitPost importToPath fileToImports st st2 (p :: rest) := by
  obtain ⟨new1, hs1, hv1, hn1, hd1, hval1⟩ := h1.appended
  obtain ⟨new2, hs2, hv2, hn2, hd2, hval2⟩ := h2.appended
  refine ⟨⟨new1 ++ new2, ?_, ?_, ?_, ?_, ?_⟩, ?_, ?_⟩
  · rw [hs2, hs1, List.append_assoc]
  · intro x
    rw [hv2, hv1, List.mem_append, or_assoc]
  · rw [List.nodup_append]
    refine ⟨hn1, hn2, ?_⟩
    intro x hx1 hx2
    exact hd2 x hx2 ((hv1 x).2 (Or.inr hx1))
  · intro x hx
    rcases List.mem_append.1 hx with hx | hx
    · exact hd1 x hx
    · exact fun hv => hd2 x hx ((hv1 x).2 (Or.inl hv))
  · intro x hx
    rcases List.mem_append.1 hx with hx | hx
    · exact hval1 x hx
    · exact hval2 x hx
  · intro x hx
    rcases List.mem_cons.1 hx with rfl | hx
    · exact (hv2 x).2 (Or.inl (h1.marked x (List.mem_singleton_self x)))
    · exact h2.marked x hx
  · intro hac hreach hsv hgood
    have hg1 := h1.ordered hac
      (fun x hx hxs t ht => hreach x hx hxs t (by
        rw [List.mem_singleton] at ht
        simp [ht])) hsv hgood
    apply h2.ordered hac _ _ hg1
    · intro x hx hxs t ht
      rw [hs1, List.mem_append, not_or] at hxs
      rcases (hv1 x).1 hx with hx | hx
      · exact hreach x hx hxs.1 t (List.mem_cons_of_mem _ ht)
      · exact absurd hx hxs.2
    · intro x hx
      rw [hs1, List.mem_append] at hx
      rcases hx with hx | hx
      · exact (hv1 x).2 (Or.inl (hsv x hx))
      · exact (hv1 x).2 (Or.inr hx)

theorem visitAll_spec (importToPath : GoMap String) (fileToImports : GoMap (List String))
    (f : String → SortState → Option SortState) (fuel : Nat)
    (hf : ∀ path st, path ∈ importToPath.values → unvisited importToPath st.visited < fuel →
      ∃ st1, f path st = some st1 ∧ VisitPost importToPath fileToImports st st1 [path])
    (paths : List String) (st : SortState) (hp : ∀ p, p ∈ paths → p ∈ importToPath.values)
    (hfuel : unvisited importToPath st.visited < fuel) :
    ∃ st1, visitAll f paths st = some st1 ∧ VisitPost importToPath fileToImports st st1 paths := by
  induction paths generalizing st with
  | nil => exact ⟨st, rfl, VisitPost.refl _ _ st [] (by simp)⟩
  | cons p rest ih =>
    obtain ⟨st1, hst1, hpost1⟩ := hf p st (hp p (List.mem_cons_self _ _)) hfuel
    obtain ⟨new1, -, hv1, -⟩ := hpost1.appended
    have hle := unvisited_mono importToPath st.visited st1.visited
      (fun x hx => (hv1 x).2 (Or.inl hx))
    obtain ⟨st2, hst2, hpost2⟩ := ih st1 (fun q hq => hp q (List.mem_cons_of_mem _ hq))
      (lt_of_le_of_lt hle hfuel)
    refine ⟨st2, ?_, VisitPost.seq _ _ st st1 st2 p rest hpost1 hpost2⟩
    simp only [visitAll, hst1, hst2]

theorem visit_spec (importToPath : GoMap String) (fileToImports : GoMap (List String))
    (fuel : Nat) (path : String) (st : SortState) (hp : path ∈ importToPath.values)
    (hfuel : unvisited importToPath st.visited < fuel) :
    ∃ st1, visit importToPath fileToImports fuel path st = some st1 ∧
      VisitPost importToPath fileToImports st st1 [path] := by
  induction fuel generalizing path st with
  | zero => exact absurd hfuel (Nat.not_lt_zero _)
  | succ fuel ih =>
    by_cases hvis : path ∈ st.visited
    · refine ⟨st, by simp [visit, hvis], VisitPost.refl _ _ st [path] ?_⟩
      intro x hx
      rw [List.mem_singleton] at hx
      rw [hx]
      exact hvis
    · have hlt := unvisited_cons_lt importToPath st.visited path hp hvis
      have htargets : ∀ p, p ∈ (importsOf fileToImports path).filterMap importToPath.get? →
          p ∈ importToPath.values := by
        intro p hpm
        obtain ⟨K, -, hK⟩ := List.mem_filterMap.1 hpm
        exact GoMap.get?_mem_values importToPath K p hK
      obtain ⟨st1, hst1, hpost⟩ := visitAll_spec importToPath fileToImports
        (visit importToPath fileToImports fuel) fuel (fun q s hq hs => ih q s hq hs)
        ((importsOf fileToImports path).filterMap importToPath.get?)
        { st with visited := path :: st.visited } htargets (by
          show unvisited importToPath (path :: st.visited) < fuel
          omega)
      obtain ⟨new, hs, hv, hn, hd, hval⟩ := hpost.appended
      simp only at hs hv hd
      refine ⟨{ st1 with sortedFiles := st1.sortedFiles ++ [path] }, ?_, ?_, ?_, ?_⟩
      · simp only [visit, hvis, if_false, visitImports_eq_visitAll, hst1]
      · refine ⟨new ++ [path], ?_, ?_, ?_, ?_, ?_⟩
        · simp only [hs, List.append_assoc]
        · intro x
          simp only [hv x, List.mem_cons, List.mem_append, List.mem_singleton]
          tauto
        · rw [List.nodup_append]
          refine ⟨hn, List.nodup_singleton _, ?_⟩
          intro x hx1 hx2
          rw [List.mem_singleton] at hx2
          exact hd x hx1 (by simp [hx2])
        · intro x hx
          rcases List.mem_append.1 hx with hx | hx
          · exact fun hxv => hd x hx (List.mem_cons_of_mem _ hxv)
          · rw [List.mem_singleton] at hx
            rw [hx]
            exact hvis
        · intro x hx
          rcases List.mem_append.1 hx with hx | hx
          · exact hval x hx
          · rw [List.mem_singleton] at hx
            rw [hx]
            exact hp
      · intro x hx
        rw [List.mem_singleton] at hx
        exact (hv x).2 (Or.inl (by simp [hx]))
      · intro hac hreach hsv hgood
        have hg1 : ImportsFirst importToPath fileToImports st1.sortedFiles := by
          apply hpost.ordered hac _ _ hgood
          · intro x hx hxs t ht
            obtain ⟨K, hK1, hK2⟩ := List.mem_filterMap.1 ht
            have hedge : Edge importToPath fileToImports path t := ⟨K, hK1, hK2⟩
            rcases List.mem_cons.1 hx with hx | hx
            · rw [hx]
              exact Relation.ReflTransGen.single hedge
            · exact (hreach x hx hxs path (List.mem_singleton_self _)).tail hedge
          · intro x hx
            exact List.mem_cons_of_mem _ (hsv x hx)
        intro F hF G hFG
        simp only [List.mem_append, List.mem_singleton] at hF
        rcases hF with hF | hF
        · exact (hg1 F hF G hFG).append [path]
        · subst hF
          have hGin : G ∈ st1.sortedFiles := by
            obtain ⟨K, hK1, hK2⟩ := hFG
            have hGv : G ∈ st1.visited := hpost.marked G (List.mem_filterMap.2 ⟨K, hK1, hK2⟩)
            rw [hs, List.mem_append]
            rcases (hv G).1 hGv with hG | hG
            · rcases List.mem_cons.1 hG with hG | hG
              · subst hG
                exact absurd (Relation.TransGen.single ⟨K, hK1, hK2⟩) (hac G)
              · by_cases hGs : G ∈ st.sortedFiles
                · exact Or.inl hGs
                · have hr := hreach G hG hGs F (List.mem_singleton_self _)
                  exact absurd (Relation.TransGen.tail' hr ⟨K, hK1, hK2⟩) (hac G)
            · exact Or.inr hG
          obtain ⟨a, b, hab⟩ := List.append_of_mem hGin
          exact ⟨a, b, [], by simp [hab]⟩

theorem topoSort_spec (importToPath : GoMap String) (fileToImports : GoMap (List String))
    (starts : List String) (hstarts : ∀ p, p ∈ starts → p ∈ importToPath.values) :
    ∃ order, topoSort importToPath fileToImports starts = some order ∧ order.Nodup ∧
      (∀ p, p ∈ order → p ∈ importToPath.values) ∧ (∀ p, p ∈ starts → p ∈ order) ∧
      (Acyclic importToPath fileToImports → ImportsFirst importToPath fileToImports order) := by
  obtain ⟨st1, hst1, hpost⟩ := visitAll_spec importToPath fileToImports
    (visit importToPath fileToImports (importToPath.length + 1)) (importToPath.length + 1)
    (fun q s hq hs => visit_spec importToPath fileToImports _ q s hq hs)
    starts ⟨[], []⟩ hstarts (Nat.lt_succ_of_le (unvisited_le_length importToPath _))
  obtain ⟨new, hs, hv, hn, -, hval⟩ := hpost.appended
  simp only [List.nil_append, List.not_mem_nil, false_or] at hs hv
  refine ⟨st1.sortedFiles, by simp [topoSort, hst1], hs ▸ hn, ?_, ?_, ?_⟩
  · intro p hp
    exact hval p (hs ▸ hp)
  · intro p hp
    rw [hs]
    exact (hv p).1 (hpost.marked p hp)
  · intro hac
    exact hpost.ordered hac (by simp) (by simp) (ImportsFirst.nil _ _)

theorem acyclic_of_rank (importToPath : GoMap String) (fileToImports : GoMap (List String))
    (rank : String → Nat)
    (h : ∀ F G, Edge importToPath fileToImports F G → rank G < rank F) :
    Acyclic importToPath fileToImports := by
  have hlt : ∀ F G, Relation.TransGen (Edge importToPath fileToImports) F G → rank G < rank F := by
    intro F G hFG
    induction hFG with
    | single e => exact h _ _ e
    | tail _ e ih => exact lt_trans (h _ _ e) ih
  intro F hF
  exact lt_irrefl _ (hlt F F hF)

theorem baseChild_acyclic : Acyclic baseChildPaths baseChildImports := by
  apply acyclic_of_rank _ _ (fun p => if p = "/r/child.proto" then 1 else 0)
  rintro F G ⟨K, hK, hG⟩
  by_cases hF : "/r/child.proto" = F
  · subst hF
    have hK1 : K = "base.proto" := by
      simpa [importsOf, baseChildImports, GoMap.get?] using hK
    subst hK1
    have hG1 : G = "/r/base.proto" := by
      have : baseChildPaths.get? "base.proto" = some "/r/base.proto" := by decide
      rw [this] at hG
      exact (Option.some.inj hG).symm
    subst hG1
    decide
  · simp [importsOf, baseChildImports, GoMap.get?, hF] at hK

/-- C1: when the locally resolvable import edges form no cycle, then for every order in which
the start points are yielded the traversal returns an order in which, for every scanned file
`F` and every import key `K` of `F` that `importToPath` resolves, the path `importToPath[K]`
stands strictly before `F`; each path stands there once. -/
theorem sorted_places_imports_first (importToPath : GoMap String)
    (fileToImports : GoMap (List String)) (starts : List String)
    (hstarts : List.Perm starts importToPath.values)
    (hacyclic : Acyclic importToPath fileToImports) :
    ∃ order, topoSort importToPath fileToImports starts = some order ∧ order.Nodup ∧
      ∀ F, F ∈ importToPath.values → ∀ K, K ∈ importsOf fileToImports F →
        ∀ G, importToPath.get? K = some G → Before order G F := by
  obtain ⟨order, hrun, hnodup, -, hall, hord⟩ := topoSort_spec importToPath fileToImports starts
    (fun p hp => hstarts.mem_iff.1 hp)
  refine ⟨order, hrun, hnodup, ?_⟩
  intro F hF K hK G hG
  exact hord hacyclic F (hall F (hstarts.mem_iff.2 hF)) G ⟨K, hK, hG⟩

theorem sorted_places_imports_first_witness :
    topoSort baseChildPaths baseChildImports ["/r/child.proto", "/r/base.proto"] =
      some ["/r/base.proto", "/r/child.proto"] ∧
    ∃ order, topoSort baseChildPaths baseChildImports ["/r/child.proto", "/r/base.proto"] =
        some order ∧ order.Nodup ∧
      ∀ F, F ∈ baseChildPaths.values → ∀ K, K ∈ importsOf baseChildImports F →
        ∀ G, baseChildPaths.get? K = some G → Before order G F :=
  ⟨by decide, sorted_places_imports_first baseChildPaths baseChildImports
    ["/r/child.proto", "/r/base.proto"] (List.Perm.swap _ _ _) baseChild_acyclic⟩

/-- C2: for every scan result, cycles and self-imports included, and every order in which the
start points are yielded, the traversal returns, and the order it returns holds every value of
`importToPath` exactly once and no other path. -/
theorem sorted_is_permutation (importToPath : GoMap String)
    (fileToImports : GoMap (List String)) (starts : List String)
    (hstarts : List.Perm starts importToPath.values) :
    ∃ order, topoSort importToPath fileToImports starts = some order ∧ order.Nodup ∧
      (∀ p, p ∈ order ↔ p ∈ importToPath.values) ∧
      (∀ p, p ∈ importToPath.values → order.count p = 1) ∧
      (importToPath.values.Nodup → List.Perm order importToPath.values) := by
  obtain ⟨order, hrun, hnodup, hsub, hall, -⟩ := topoSort_spec importToPath fileToImports starts
    (fun p hp => hstarts.mem_iff.1 hp)
  have hmem : ∀ p, p ∈ order ↔ p ∈ importToPath.values :=
    fun p => ⟨hsub p, fun hp => hall p (hstarts.mem_iff.2 hp)⟩
  refine ⟨order, hrun, hnodup, hmem, ?_, ?_⟩
  · intro p hp
    exact List.count_eq_one_of_mem hnodup ((hmem p).2 hp)
  · intro hv
    exact (List.perm_ext_iff_of_nodup hnodup hv).2 hmem

theorem sorted_is_permutation_witness :
    topoSort cyclePaths cycleImports ["/r/a.proto", "/r/b.proto", "/r/c.proto"] =
      some ["/r/b.proto", "/r/a.proto", "/r/c.proto"] ∧
    ∃ order, topoSort cyclePaths cycleImports ["/r/a.proto", "/r/b.proto", "/r/c.proto"] =
        some order ∧ order.Nodup ∧
      (∀ p, p ∈ order ↔ p ∈ cyclePaths.values) ∧
      (∀ p, p ∈ cyclePaths.values → order.count p = 1) ∧
      (cyclePaths.values.Nodup → List.Perm order cyclePaths.values) :=
  ⟨by decide, sorted_is_permutation cyclePaths cycleImports
    ["/r/a.proto", "/r/b.proto", "/r/c.proto"] (List.Perm.refl _)⟩

/-! ## Strings -/

theorem replaceChars_slash (l : List Char) :
    replaceChars ['/'] ['-'] 0 l = l.map (fun c => if c = '/' then '-' else c) := by
  induction l with
  | nil => rfl
  | cons c cs ih =>
    by_cases hc : c = '/'
    · subst hc
      simp [replaceChars, ih]
    · have hc1 : ¬ '/' = c := fun h => hc h.symm
      simp [replaceChars, ih, hc, hc1]

theorem map_slash_injective (a b : List Char) (ha : '-' ∉ a) (hb : '-' ∉ b)
    (h : a.map (fun c => if c = '/' then '-' else c) = b.map (fun c => if c = '/' then '-' else c)) :
    a = b := by
  induction a generalizing b with
  | nil =>
    cases b with
    | nil => rfl
    | cons y ys => simp at h
  | cons x xs ih =>
    cases b with
    | nil => simp at h
    | cons y ys =>
      simp only [List.map_cons, List.cons.injEq] at h
      simp only [List.mem_cons, not_or] at ha hb
      have hxy : x = y := by
        by_cases hx : x = '/'
        · by_cases hy : y = '/'
          · rw [hx, hy]
          · simp only [hx, hy, if_true, if_false] at h
            exact absurd h.1 hb.1
        · by_cases hy : y = '/'
          · simp only [hx, hy, if_true, if_false] at h
            exact absurd h.1.symm ha.1
          · simpa [hx, hy] using h.1
      rw [hxy, ih ys ha.2 hb.2 h.2]

theorem artifactIDOf_of_suffix (p : String) (a : List Char) (h : p.data = a ++ ".proto".data) :
    artifactIDOf p = ⟨a.map (fun c => if c = '/' then '-' else c)⟩ := by
  have hs : HasSuffix p ".proto" = true := by
    simp only [HasSuffix, List.isSuffixOf_iff_suffix, h]
    exact List.suffix_append _ _
  have ht : TrimSuffix p ".proto" = ⟨a⟩ := by
    simp only [TrimSuffix, hs, if_true, h, List.length_append, Nat.add_sub_cancel,
      List.take_left']
  simp only [artifactIDOf, ht, ReplaceAll]
  have hsep : (String.singleton Separator).data = ['/'] := rfl
  have hdash : ("-" : String).data = ['-'] := rfl
  simp only [hsep, hdash, List.isEmpty_cons, replaceChars_slash]
  rfl

theorem refIDOf_eq_artifactIDOf (imp : String) : refIDOf imp = artifactIDOf imp := rfl

theorem artifactIDOf_eq_specIdentifier (key : String) :
    artifactIDOf key = specIdentifier key := by
  by_cases hs : ".proto".data.isSuffixOf key.data = true
  · have hsuf := hs
    rw [List.isSuffixOf_iff_suffix] at hsuf
    obtain ⟨a, ha⟩ := hsuf
    rw [artifactIDOf_of_suffix key a ha.symm]
    have hdrop : (".proto".data.reverse ++ a.reverse).drop 6 = a.reverse :=
      List.drop_left' rfl
    have hstem : (key.data.reverse.drop 6).reverse = a := by
      rw [← ha, List.reverse_append, hdrop, List.reverse_reverse]
    simp only [specIdentifier, hs, if_true, hstem]
  · have ht : TrimSuffix key ".proto" = key := by
      simp only [TrimSuffix, HasSuffix, hs]
      rfl
    have hsep : (String.singleton Separator).data = ['/'] := rfl
    have hdash : ("-" : String).data = ['-'] := rfl
    simp only [artifactIDOf, ht, ReplaceAll, hsep, hdash, List.isEmpty_cons, replaceChars_slash,
      specIdentifier, hs]
    rfl

theorem refIDOf_eq_specIdentifier (imp : String) : refIDOf imp = specIdentifier imp :=
  artifactIDOf_eq_specIdentifier imp


theorem containsChars_append (sub pre post : List Char) :
    containsChars sub (pre ++ (sub ++ post)) = true := by
  induction pre with
  | nil =>
    simp only [List.nil_append]
    cases h : sub ++ post with
    | nil =>
      have : sub = [] := (List.append_eq_nil.1 h).1
      simp [containsChars, this]
    | cons c cs =>
      simp only [containsChars, Bool.or_eq_true, List.isPrefixOf_iff_prefix]
      exact Or.inl (h ▸ List.prefix_append _ _)
  | cons c cs ih =>
    simp only [List.cons_append, containsChars, Bool.or_eq_true]
    exact Or.inr ih

theorem Contains_middle (a b c : String) : Contains (a ++ b ++ c) b = true := by
  simp only [Contains, String.data_append, List.append_assoc]
  exact containsChars_append _ _ _

theorem Contains_message (a b c d : String) : Contains (a ++ b ++ c ++ d) b = true := by
  rw [String.append_assoc]
  exact Contains_middle a b (c ++ d)

theorem specConflict_contains (e : String) (h : specConflict e = true) :
    Contains e "409" = true := by
  have hdigits : e.data.takeWhile Char.isDigit = "409".data := of_decide_eq_true h
  have hsplit : e.data = [] ++ ("409".data ++ e.data.dropWhile Char.isDigit) := by
    rw [List.nil_append, ← hdigits, List.takeWhile_append_dropWhile]
  simp only [Contains]
  rw [hsplit]
  exact containsChars_append _ _ _

/-! ## The import pattern -/

theorem importRegexMatch_iff (s p : List Char) :
    importRegexMatch s = some p ↔
      ∃ ws rest, s = "import".data ++ (ws ++ dquote :: (p ++ dquote :: ';' :: rest)) ∧
        ws ≠ [] ∧ (∀ c, c ∈ ws → isRegexSpace c = true) ∧ p ≠ [] ∧ dquote ∉ p := by
  constructor
  · intro h
    unfold importRegexMatch at h
    split at h
    · rename_i hpre
      rw [List.isPrefixOf_iff_prefix] at hpre
      obtain ⟨t, ht⟩ := hpre
      have hdrop : s.drop 6 = t := by
        rw [← ht]
        exact List.drop_left' rfl
      simp only [hdrop] at h
      split at h
      · exact absurd h (by simp)
      · rename_i hws
        split at h
        · rename_i q r2 hq
          split at h
          · rename_i hqq
            split at h
            · exact absurd h (by simp)
            · rename_i hp
              split at h
              · rename_i q2 semi rest hrest
                split at h
                · rename_i hq2
                  simp only [Option.some.injEq] at h
                  refine ⟨t.takeWhile isRegexSpace, rest, ?_, ?_, ?_, ?_, ?_⟩
                  · obtain ⟨hq2a, hq2b⟩ := hq2
                    subst hq2a hq2b hqq
                    have h1 : r2 = p ++ dquote :: ';' :: rest := by
                      rw [← h, ← hrest, List.takeWhile_append_dropWhile]
                    have h2 : t = t.takeWhile isRegexSpace ++ dquote :: r2 := by
                      rw [← hq, List.takeWhile_append_dropWhile]
                    rw [← ht, ← h1, ← h2]
                  · simpa using hws
                  · intro c hc
                    exact List.mem_takeWhile_imp hc
                  · rw [← h]
                    simpa using hp
                  · rw [← h]
                    intro hmem
                    have := List.mem_takeWhile_imp hmem
                    simp [notQuote] at this
                · exact absurd h (by simp)
              · exact absurd h (by simp)
          · exact absurd h (by simp)
        · exact absurd h (by simp)
    · exact absurd h (by simp)
  · rintro ⟨ws, rest, rfl, hws, hall, hp, hq⟩
    have hpre : "import".data.isPrefixOf
        ("import".data ++ (ws ++ dquote :: (p ++ dquote :: ';' :: rest))) = true := by
      rw [List.isPrefixOf_iff_prefix]
      exact List.prefix_append _ _
    have hdrop : ("import".data ++ (ws ++ dquote :: (p ++ dquote :: ';' :: rest))).drop 6 =
        ws ++ dquote :: (p ++ dquote :: ';' :: rest) := List.drop_left' rfl
    have hnq : ∀ c, c ∈ p → notQuote c = true := by
      intro c hc
      simp only [notQuote, Bool.not_eq_true', decide_eq_false_iff_not]
      intro hcq
      exact hq (hcq ▸ hc)
    have hsq : ¬ isRegexSpace dquote = true := by decide
    have hqq : ¬ notQuote dquote = true := by decide
    have htw : (ws ++ dquote :: (p ++ dquote :: ';' :: rest)).takeWhile isRegexSpace = ws := by
      rw [List.takeWhile_append_of_pos hall, List.takeWhile_cons_of_neg hsq, List.append_nil]
    have hdw : (ws ++ dquote :: (p ++ dquote :: ';' :: rest)).dropWhile isRegexSpace =
        dquote :: (p ++ dquote :: ';' :: rest) := by
      rw [List.dropWhile_append_of_pos hall, List.dropWhile_cons_of_neg hsq]
    have htw2 : (p ++ dquote :: ';' :: rest).takeWhile notQuote = p := by
      rw [List.takeWhile_append_of_pos hnq, List.takeWhile_cons_of_neg hqq, List.append_nil]
    have hdw2 : (p ++ dquote :: ';' :: rest).dropWhile notQuote = dquote :: ';' :: rest := by
      rw [List.dropWhile_append_of_pos hnq, List.dropWhile_cons_of_neg hqq]
    unfold importRegexMatch
    simp only [hpre, if_true, hdrop, htw, hdw, htw2, hdw2]
    simp [hws, hp]

theorem FindStringSubmatch_iff (t p : String) :
    FindStringSubmatch t = some p ↔
      ∃ ws rest, t.data = "import".data ++ (ws ++ dquote :: (p.data ++ dquote :: ';' :: rest)) ∧
        ws ≠ [] ∧ (∀ c, c ∈ ws → isRegexSpace c = true) ∧ p.data ≠ [] ∧ dquote ∉ p.data := by
  rw [← importRegexMatch_iff]
  unfold FindStringSubmatch
  cases importRegexMatch t.data with
  | none => simp
  | some x =>
    simp only [Option.map_some', Option.some.injEq]
    constructor
    · intro h
      rw [← h]
    · intro h
      rw [h]

/-! ## Maps under assignment -/

theorem GoMap.get?_set {β : Type} (m : GoMap β) (k k1 : String) (v : β) :
    (m.set k v).get? k1 = if k = k1 then some v else m.get? k1 := by
  induction m with
  | nil => simp [GoMap.set, GoMap.get?]
  | cons kv rest ih =>
    obtain ⟨k0, v0⟩ := kv
    by_cases h0 : k0 = k
    · subst h0
      by_cases h1 : k0 = k1 <;> simp [GoMap.set, GoMap.get?, h1]
    · by_cases h1 : k0 = k1
      · subst h1
        have : ¬ k = k0 := fun h => h0 h.symm
        simp [GoMap.set, GoMap.get?, h0, this]
      · simp [GoMap.set, GoMap.get?, h0, h1, ih]

theorem importsOf_scanLines (path : String) (lines : List String)
    (fileToImports : GoMap (List String)) (other : String) :
    importsOf (scanLines path lines fileToImports) other =
      if path = other then
        importsOf fileToImports other ++
          lines.filterMap (fun line => FindStringSubmatch (TrimSpace line))
      else importsOf fileToImports other := by
  induction lines generalizing fileToImports with
  | nil => simp [scanLines]
  | cons line rest ih =>
    cases h : FindStringSubmatch (TrimSpace line) with
    | none => simp only [scanLines, h, ih, List.filterMap_cons]
    | some imp =>
      simp only [scanLines, h, ih, List.filterMap_cons]
      by_cases hp : path = other
      · subst hp
        simp [importsOf, GoMap.get?_set]
      · simp [importsOf, GoMap.get?_set, hp]

/-- C3, counterexample: the scanned relative paths `a/b.proto` and `a-b.proto` are distinct,
both end in `.proto`, and receive the same artifact identifier. -/
theorem artifactID_collision :
    "a/b.proto" ≠ "a-b.proto" ∧ HasSuffix "a/b.proto" ".proto" = true ∧
      HasSuffix "a-b.proto" ".proto" = true ∧
      artifactIDOf "a/b.proto" = artifactIDOf "a-b.proto" := by decide

/-- C3, amended: two distinct relative paths ending in `.proto`, neither containing the
character `-`, receive different artifact identifiers. -/
theorem artifactID_injective_without_dash (p q : String) (hne : p ≠ q)
    (hp : HasSuffix p ".proto" = true) (hq : HasSuffix q ".proto" = true)
    (hpd : '-' ∉ p.data) (hqd : '-' ∉ q.data) :
    artifactIDOf p ≠ artifactIDOf q := by
  simp only [HasSuffix, List.isSuffixOf_iff_suffix] at hp hq
  obtain ⟨a, ha⟩ := hp
  obtain ⟨b, hb⟩ := hq
  rw [artifactIDOf_of_suffix p a ha.symm, artifactIDOf_of_suffix q b hb.symm]
  intro h
  have hab : a = b := by
    apply map_slash_injective a b
    · intro hm
      exact hpd (ha ▸ List.mem_append_left _ hm)
    · intro hm
      exact hqd (hb ▸ List.mem_append_left _ hm)
    · exact congrArg String.data h
  apply hne
  apply String.ext
  rw [← ha, ← hb, hab]

theorem artifactID_injective_without_dash_witness :
    artifactIDOf "a/b.proto" ≠ artifactIDOf "a/c.proto" :=
  artifactID_injective_without_dash "a/b.proto" "a/c.proto" (by decide) (by decide) (by decide)
    (by decide) (by decide)

/-- C8, counterexample: the line `import "a.proto"; // base types` is not of the form
`import "<path>";`, yet the scanner loop records `a.proto` for it. -/
theorem trailing_text_line_is_recorded :
    specImportLine (TrimSpace commentedImportLine) = none ∧
      importsOf (scanLines "/r/x.proto" [commentedImportLine] []) "/r/x.proto" = ["a.proto"] ∧
      importsOf (scanLines "/r/x.proto" [commentedImportLine] []) "/r/x.proto" ≠
        [commentedImportLine].filterMap (fun line => specImportLine (TrimSpace line)) := by
  decide

/-- C8, amended: the imports the scanner loop appends for a file are, in line order, the
capture of every line that matches, and a whitespace-trimmed line matches with path `p` exactly
when it starts with `import`, one or more of tab, newline, form feed, carriage return and
space, a double quote, the non-empty `p` free of double quotes, then a double quote and a
semicolon; what follows the semicolon is not looked at. The entries of other files are left as
they were, and no line makes the loop fail. -/
theorem recorded_imports_are_prefix_matches (path : String) (lines : List String)
    (fileToImports : GoMap (List String)) :
    importsOf (scanLines path lines fileToImports) path =
        importsOf fileToImports path ++
          lines.filterMap (fun line => FindStringSubmatch (TrimSpace line)) ∧
      (∀ other, other ≠ path →
        importsOf (scanLines path lines fileToImports) other = importsOf fileToImports other) ∧
      ∀ t p, FindStringSubmatch t = some p ↔
        ∃ ws rest,
          t.data = "import".data ++ (ws ++ dquote :: (p.data ++ dquote :: ';' :: rest)) ∧
          ws ≠ [] ∧ (∀ c, c ∈ ws → isRegexSpace c = true) ∧ p.data ≠ [] ∧ dquote ∉ p.data := by
  refine ⟨?_, ?_, FindStringSubmatch_iff⟩
  · rw [importsOf_scanLines]
    simp
  · intro other hne
    rw [importsOf_scanLines]
    have : ¬ path = other := fun h => hne h.symm
    simp [this]

theorem recorded_imports_are_prefix_matches_witness :
    importsOf (scanLines "/r/x.proto"
        ["syntax = proto3;", importLine "a.proto", commentedImportLine, "import a.proto;"] [])
        "/r/x.proto" = ["a.proto", "a.proto"] ∧
      importsOf (scanLines "/r/x.proto"
        ["syntax = proto3;", importLine "a.proto", commentedImportLine, "import a.proto;"] [])
        "/r/x.proto" =
        importsOf [] "/r/x.proto" ++
          ["syntax = proto3;", importLine "a.proto", commentedImportLine,
            "import a.proto;"].filterMap (fun line => FindStringSubmatch (TrimSpace line)) :=
  ⟨by decide, (recorded_imports_are_prefix_matches "/r/x.proto"
    ["syntax = proto3;", importLine "a.proto", commentedImportLine, "import a.proto;"] []).1⟩

/-! ## The registration loop -/

theorem buildRefs_eq (importToPath : GoMap String) (imports : List String)
    (acc : List ArtifactReference) :
    buildRefs importToPath imports acc = acc ++ specReferences importToPath imports := by
  induction imports generalizing acc with
  | nil => simp [buildRefs, specReferences]
  | cons imp rest ih =>
    cases h : importToPath.get? imp with
    | none => simp [buildRefs, specReferences, h, ih, List.filter_cons]
    | some v => simp [buildRefs, specReferences, h, ih, List.filter_cons]

theorem createReq_references (fs : FileSystem) (protoRoot : String) (importToPath : GoMap String)
    (fileToImports : GoMap (List String)) (path content : String) :
    (createReq fs protoRoot importToPath fileToImports path content).FirstVersion.Content.References =
      specReferences importToPath (importsOf fileToImports path) := by
  simp [createReq, buildRefs_eq]

theorem verifyLoop_succ_none {σ : Type} (reg : Registry σ) (artifactID : String) (n : Nat) (s : σ)
    (v : Option String) (h : (reg.GetArtifactMetadata s "default" artifactID).2 = none) :
    verifyLoop reg artifactID (n + 1) s v =
      ((reg.GetArtifactMetadata s "default" artifactID).1,
        [Call.getArtifactMetadata "default" artifactID none], none) := by
  rcases hg : reg.GetArtifactMetadata s "default" artifactID with ⟨s1, _ | e⟩
  · simp [verifyLoop, hg]
  · simp [hg] at h

theorem verifyLoop_succ_some {σ : Type} (reg : Registry σ) (artifactID : String) (n : Nat) (s : σ)
    (v : Option String) (e : String)
    (h : (reg.GetArtifactMetadata s "default" artifactID).2 = some e) :
    verifyLoop reg artifactID (n + 1) s v =
      ((verifyLoop reg artifactID n (reg.GetArtifactMetadata s "default" artifactID).1 (some e)).1,
        Call.getArtifactMetadata "default" artifactID (some e) ::
          (verifyLoop reg artifactID n (reg.GetArtifactMetadata s "default" artifactID).1
            (some e)).2.1,
        (verifyLoop reg artifactID n (reg.GetArtifactMetadata s "default" artifactID).1
          (some e)).2.2) := by
  rcases hg : reg.GetArtifactMetadata s "default" artifactID with ⟨s1, _ | e1⟩
  · simp [hg] at h
  · simp only [hg, Option.some.injEq] at h
    subst h
    simp [verifyLoop, hg]

theorem verifyLoop_calls {σ : Type} (reg : Registry σ) (artifactID : String) (n : Nat) (s : σ)
    (v : Option String) :
    ∀ c, c ∈ (verifyLoop reg artifactID n s v).2.1 →
      ∃ e, c = Call.getArtifactMetadata "default" artifactID e := by
  induction n generalizing s v with
  | zero => simp [verifyLoop]
  | succ n ih =>
    cases h : (reg.GetArtifactMetadata s "default" artifactID).2 with
    | none =>
      rw [verifyLoop_succ_none reg artifactID n s v h]
      intro c hc
      exact ⟨none, by simpa using hc⟩
    | some e =>
      rw [verifyLoop_succ_some reg artifactID n s v e h]
      intro c hc
      rcases List.mem_cons.1 hc with hc | hc
      · exact ⟨some e, hc⟩
      · exact ih _ _ c hc

theorem verifyLoop_success {σ : Type} (reg : Registry σ) (artifactID : String) (n : Nat) (s : σ)
    (v : Option String) (h : (verifyLoop reg artifactID (n + 1) s v).2.2 = none) :
    Call.getArtifactMetadata "default" artifactID none ∈
      (verifyLoop reg artifactID (n + 1) s v).2.1 := by
  induction n generalizing s v with
  | zero =>
    cases hg : (reg.GetArtifactMetadata s "default" artifactID).2 with
    | none => simp [verifyLoop_succ_none reg artifactID 0 s v hg]
    | some e =>
      rw [verifyLoop_succ_some reg artifactID 0 s v e hg] at h
      simp [verifyLoop] at h
  | succ n ih =>
    cases hg : (reg.GetArtifactMetadata s "default" artifactID).2 with
    | none => simp [verifyLoop_succ_none reg artifactID (n + 1) s v hg]
    | some e =>
      rw [verifyLoop_succ_some reg artifactID (n + 1) s v e hg] at h ⊢
      exact List.mem_cons_of_mem _ (ih _ _ h)

theorem verifyLoop_all_fail {σ : Type} (reg : Registry σ) (artifactID : String) (n : Nat) (s : σ)
    (v : Option String)
    (hfail : ∀ k, k < n + 1 →
      (reg.GetArtifactMetadata (pollState reg artifactID k s) "default" artifactID).2 ≠ none) :
    ∃ polls e, verifyLoop reg artifactID (n + 1) s v =
        (pollState reg artifactID (n + 1) s, polls, some e) ∧ polls.length = n + 1 ∧
      ∀ c, c ∈ polls → ∃ e1, c = Call.getArtifactMetadata "default" artifactID (some e1) := by
  induction n generalizing s v with
  | zero =>
    cases hg : (reg.GetArtifactMetadata s "default" artifactID).2 with
    | none => exact absurd hg (hfail 0 (by omega))
    | some e =>
      refine ⟨[Call.getArtifactMetadata "default" artifactID (some e)], e, ?_, rfl, ?_⟩
      · rw [verifyLoop_succ_some reg artifactID 0 s v e hg]
        simp [verifyLoop, pollState]
      · intro c hc
        exact ⟨e, by simpa using hc⟩
  | succ n ih =>
    cases hg : (reg.GetArtifactMetadata s "default" artifactID).2 with
    | none => exact absurd hg (hfail 0 (by omega))
    | some e =>
      obtain ⟨polls, e2, hrun, hlen, hall⟩ :=
        ih (reg.GetArtifactMetadata s "default" artifactID).1 (some e)
          (fun k hk => hfail (k + 1) (by omega))
      refine ⟨Call.getArtifactMetadata "default" artifactID (some e) :: polls, e2, ?_, ?_, ?_⟩
      · rw [verifyLoop_succ_some reg artifactID (n + 1) s v e hg, hrun]
        simp [pollState]
      · simp [hlen]
      · intro c hc
        rcases List.mem_cons.1 hc with hc | hc
        · exact ⟨e, hc⟩
        · exact hall c hc

theorem verifyLoop_first_success {σ : Type} (reg : Registry σ) (artifactID : String) (n k : Nat)
    (s : σ) (v : Option String) (hk : k < n)
    (hfail : ∀ j, j < k →
      (reg.GetArtifactMetadata (pollState reg artifactID j s) "default" artifactID).2 ≠ none)
    (hok : (reg.GetArtifactMetadata (pollState reg artifactID k s) "default" artifactID).2 = none) :
    ∃ fails, verifyLoop reg artifactID n s v =
        ((reg.GetArtifactMetadata (pollState reg artifactID k s) "default" artifactID).1,
          fails ++ [Call.getArtifactMetadata "default" artifactID none], none) ∧
      fails.length = k ∧
      ∀ c, c ∈ fails → ∃ e1, c = Call.getArtifactMetadata "default" artifactID (some e1) := by
  induction k generalizing n s v with
  | zero =>
    obtain ⟨m, rfl⟩ : ∃ m, n = m + 1 := ⟨n - 1, by omega⟩
    exact ⟨[], by simpa [pollState] using verifyLoop_succ_none reg artifactID m s v hok, rfl,
      by simp⟩
  | succ k ih =>
    obtain ⟨m, rfl⟩ : ∃ m, n = m + 1 := ⟨n - 1, by omega⟩
    cases hg : (reg.GetArtifactMetadata s "default" artifactID).2 with
    | none => exact absurd hg (hfail 0 (by omega))
    | some e =>
      obtain ⟨fails, hrun, hlen, hall⟩ :=
        ih m (reg.GetArtifactMetadata s "default" artifactID).1 (some e) (by omega)
          (fun j hj => hfail (j + 1) (by omega)) hok
      refine ⟨Call.getArtifactMetadata "default" artifactID (some e) :: fails, ?_, ?_, ?_⟩
      · rw [verifyLoop_succ_some reg artifactID m s v e hg, hrun]
        simp [pollState]
      · simp [hlen]
      · intro c hc
        rcases List.mem_cons.1 hc with hc | hc
        · exact ⟨e, hc⟩
        · exact hall c hc

theorem registerFile_read_error {σ : Type} (reg : Registry σ) (fs : FileSystem)
    (protoRoot : String) (importToPath : GoMap String) (fileToImports : GoMap (List String))
    (path : String) (s : σ) (e : String) (hread : fs.ReadFile path = .error e) :
    registerFile reg fs protoRoot importToPath fileToImports path s =
      ⟨s, [], some ("failed to read proto file " ++ path ++ ": " ++ e)⟩ := by
  simp [registerFile, hread]

theorem registerFile_rejected {σ : Type} (reg : Registry σ) (fs : FileSystem)
    (protoRoot : String) (importToPath : GoMap String) (fileToImports : GoMap (List String))
    (path content : String) (s : σ) (e : String) (hread : fs.ReadFile path = .ok content)
    (hcreate : (reg.CreateArtifact s "default"
      (createReq fs protoRoot importToPath fileToImports path content)).2 = some e)
    (h409 : Contains e "409" = false) :
    registerFile reg fs protoRoot importToPath fileToImports path s =
      ⟨(reg.CreateArtifact s "default"
          (createReq fs protoRoot importToPath fileToImports path content)).1,
        [Call.createArtifact "default"
          (createReq fs protoRoot importToPath fileToImports path content) (some e)],
        some ("failed to register " ++ artifactIDOf (relPathOf fs protoRoot path) ++ ": " ++ e)⟩ := by
  rcases hc : reg.CreateArtifact s "default"
      (createReq fs protoRoot importToPath fileToImports path content) with ⟨s1, err⟩
  rw [hc] at hcreate
  simp only at hcreate
  subst hcreate
  simp [registerFile, hread, hc, Option.filter, h409]

theorem registerFile_accepted {σ : Type} (reg : Registry σ) (fs : FileSystem)
    (protoRoot : String) (importToPath : GoMap String) (fileToImports : GoMap (List String))
    (path content : String) (s : σ) (hread : fs.ReadFile path = .ok content)
    (hcreate : ∀ e, (reg.CreateArtifact s "default"
      (createReq fs protoRoot importToPath fileToImports path content)).2 = some e →
        Contains e "409" = true) :
    registerFile reg fs protoRoot importToPath fileToImports path s =
      ⟨(verifyLoop reg (artifactIDOf (relPathOf fs protoRoot path)) maxRetriesVerify
          (reg.CreateArtifact s "default"
            (createReq fs protoRoot importToPath fileToImports path content)).1 none).1,
        Call.createArtifact "default"
            (createReq fs protoRoot importToPath fileToImports path content)
            (reg.CreateArtifact s "default"
              (createReq fs protoRoot importToPath fileToImports path content)).2 ::
          (verifyLoop reg (artifactIDOf (relPathOf fs protoRoot path)) maxRetriesVerify
            (reg.CreateArtifact s "default"
              (createReq fs protoRoot importToPath fileToImports path content)).1 none).2.1,
        (verifyLoop reg (artifactIDOf (relPathOf fs protoRoot path)) maxRetriesVerify
          (reg.CreateArtifact s "default"
            (createReq fs protoRoot importToPath fileToImports path content)).1 none).2.2.map
          (fun e => "failed to verify registration of " ++
            artifactIDOf (relPathOf fs protoRoot path) ++ " after retries: " ++ e)⟩ := by
  rcases hc : reg.CreateArtifact s "default"
      (createReq fs protoRoot importToPath fileToImports path content) with ⟨s1, err⟩
  rw [hc] at hcreate
  simp only at hcreate
  have hfilter : err.filter (fun e => !Contains e "409") = none := by
    cases err with
    | none => rfl
    | some e => simp [Option.filter, hcreate e rfl]
  rcases hv : verifyLoop reg (artifactIDOf (relPathOf fs protoRoot path)) maxRetriesVerify s1 none
    with ⟨s2, calls, _ | e⟩
  · simp [registerFile, hread, hc, hfilter, hv]
  · simp [registerFile, hread, hc, hfilter, hv]

theorem registerFiles_cons_err {σ : Type} (reg : Registry σ) (fs : FileSystem)
    (protoRoot : String) (importToPath : GoMap String) (fileToImports : GoMap (List String))
    (path : String) (rest : List String) (s : σ) (e : String)
    (h : (registerFile reg fs protoRoot importToPath fileToImports path s).err = some e) :
    registerFiles reg fs protoRoot importToPath fileToImports (path :: rest) s =
      registerFile reg fs protoRoot importToPath fileToImports path s := by
  rcases hr : registerFile reg fs protoRoot importToPath fileToImports path s with ⟨s1, calls, err⟩
  rw [hr] at h
  simp only at h
  subst h
  simp [registerFiles, hr]

theorem registerFiles_cons_ok {σ : Type} (reg : Registry σ) (fs : FileSystem)
    (protoRoot : String) (importToPath : GoMap String) (fileToImports : GoMap (List String))
    (path : String) (rest : List String) (s : σ)
    (h : (registerFile reg fs protoRoot importToPath fileToImports path s).err = none) :
    registerFiles reg fs protoRoot importToPath fileToImports (path :: rest) s =
      ⟨(registerFiles reg fs protoRoot importToPath fileToImports rest
          (registerFile reg fs protoRoot importToPath fileToImports path s).state).state,
        (registerFile reg fs protoRoot importToPath fileToImports path s).calls ++
          (registerFiles reg fs protoRoot importToPath fileToImports rest
            (registerFile reg fs protoRoot importToPath fileToImports path s).state).calls,
        (registerFiles reg fs protoRoot importToPath fileToImports rest
          (registerFile reg fs protoRoot importToPath fileToImports path s).state).err⟩ := by
  rcases hr : registerFile reg fs protoRoot importToPath fileToImports path s with ⟨s1, calls, err⟩
  rw [hr] at h
  simp only at h
  subst h
  simp [registerFiles, hr]

theorem registerFiles_append_ok {σ : Type} (reg : Registry σ) (fs : FileSystem)
    (protoRoot : String) (importToPath : GoMap String) (fileToImports : GoMap (List String))
    (l1 l2 : List String) (s : σ)
    (h : (registerFiles reg fs protoRoot importToPath fileToImports l1 s).err = none) :
    registerFiles reg fs protoRoot importToPath fileToImports (l1 ++ l2) s =
      ⟨(registerFiles reg fs protoRoot importToPath fileToImports l2
          (registerFiles reg fs protoRoot importToPath fileToImports l1 s).state).state,
        (registerFiles reg fs protoRoot importToPath fileToImports l1 s).calls ++
          (registerFiles reg fs protoRoot importToPath fileToImports l2
            (registerFiles reg fs protoRoot importToPath fileToImports l1 s).state).calls,
        (registerFiles reg fs protoRoot importToPath fileToImports l2
          (registerFiles reg fs protoRoot importToPath fileToImports l1 s).state).err⟩ := by
  induction l1 generalizing s with
  | nil => simp [registerFiles]
  | cons p rest ih =>
    cases hp : (registerFile reg fs protoRoot importToPath fileToImports p s).err with
    | some e =>
      rw [registerFiles_cons_err reg fs protoRoot importToPath fileToImports p rest s e hp] at h
      rw [hp] at h
      exact absurd h (by simp)
    | none =>
      rw [registerFiles_cons_ok reg fs protoRoot importToPath fileToImports p rest s hp] at h
      simp only at h
      rw [List.cons_append,
        registerFiles_cons_ok reg fs protoRoot importToPath fileToImports p (rest ++ l2) s hp,
        registerFiles_cons_ok reg fs protoRoot importToPath fileToImports p rest s hp, ih _ h]
      simp

theorem registerFile_shape {σ : Type} (reg : Registry σ) (fs : FileSystem)
    (protoRoot : String) (importToPath : GoMap String) (fileToImports : GoMap (List String))
    (path : String) (s : σ) :
    (∃ e, fs.ReadFile path = .error e ∧
      (registerFile reg fs protoRoot importToPath fileToImports path s).calls = [] ∧
      (registerFile reg fs protoRoot importToPath fileToImports path s).err ≠ none) ∨
    ∃ content e polls, fs.ReadFile path = .ok content ∧
      (registerFile reg fs protoRoot importToPath fileToImports path s).calls =
        Call.createArtifact "default"
          (createReq fs protoRoot importToPath fileToImports path content) e :: polls ∧
      (∀ c, c ∈ polls → ∃ e1, c = Call.getArtifactMetadata "default"
        (artifactIDOf (relPathOf fs protoRoot path)) e1) ∧
      ((registerFile reg fs protoRoot importToPath fileToImports path s).err = none →
        Call.getArtifactMetadata "default" (artifactIDOf (relPathOf fs protoRoot path)) none ∈
          polls) := by
  cases hread : fs.ReadFile path with
  | error e =>
    left
    rw [registerFile_read_error reg fs protoRoot importToPath fileToImports path s e hread]
    exact ⟨e, rfl, rfl, by simp⟩
  | ok content =>
    right
    by_cases hrej : ∃ e, (reg.CreateArtifact s "default"
        (createReq fs protoRoot importToPath fileToImports path content)).2 = some e ∧
        Contains e "409" = false
    · obtain ⟨e, he, h409⟩ := hrej
      rw [registerFile_rejected reg fs protoRoot importToPath fileToImports path content s e hread
        he h409]
      exact ⟨content, some e, [], rfl, rfl, by simp, by simp⟩
    · have hacc : ∀ e, (reg.CreateArtifact s "default"
          (createReq fs protoRoot importToPath fileToImports path content)).2 = some e →
          Contains e "409" = true := by
        intro e he
        by_contra hc
        exact hrej ⟨e, he, by simpa using hc⟩
      rw [registerFile_accepted reg fs protoRoot importToPath fileToImports path content s hread
        hacc]
      refine ⟨content, _, _, rfl, rfl, verifyLoop_calls _ _ _ _ _, ?_⟩
      intro herr
      simp only [Option.map_eq_none'] at herr
      exact verifyLoop_success reg _ 4 _ none herr

theorem registerFiles_creates {σ : Type} (reg : Registry σ) (fs : FileSystem)
    (protoRoot : String) (importToPath : GoMap String) (fileToImports : GoMap (List String))
    (order : List String) (s : σ) :
    ∀ groupID req err, Call.createArtifact groupID req err ∈
        (registerFiles reg fs protoRoot importToPath fileToImports order s).calls →
      ∃ path content, path ∈ order ∧ fs.ReadFile path = .ok content ∧ groupID = "default" ∧
        req = createReq fs protoRoot importToPath fileToImports path content := by
  induction order generalizing s with
  | nil => simp [registerFiles]
  | cons p rest ih =>
    intro groupID req err hmem
    have hhead : Call.createArtifact groupID req err ∈
        (registerFile reg fs protoRoot importToPath fileToImports p s).calls →
        ∃ path content, path ∈ p :: rest ∧ fs.ReadFile path = .ok content ∧
          groupID = "default" ∧
          req = createReq fs protoRoot importToPath fileToImports path content := by
      intro hm
      rcases registerFile_shape reg fs protoRoot importToPath fileToImports p s with
        ⟨e, -, hcalls, -⟩ | ⟨content, e, polls, hread, hcalls, hpolls, -⟩
      · rw [hcalls] at hm
        exact absurd hm (List.not_mem_nil _)
      · rw [hcalls] at hm
        rcases List.mem_cons.1 hm with hm | hm
        · injection hm with h1 h2 h3
          exact ⟨p, content, List.mem_cons_self _ _, hread, h1, h2⟩
        · obtain ⟨e1, he1⟩ := hpolls _ hm
          exact absurd he1 (by simp)
    cases hp : (registerFile reg fs protoRoot importToPath fileToImports p s).err with
    | some e =>
      rw [registerFiles_cons_err reg fs protoRoot importToPath fileToImports p rest s e hp] at hmem
      exact hhead hmem
    | none =>
      rw [registerFiles_cons_ok reg fs protoRoot importToPath fileToImports p rest s hp] at hmem
      simp only [List.mem_append] at hmem
      rcases hmem with hm | hm
      · exact hhead hm
      · obtain ⟨path, content, hin, hrest⟩ := ih _ groupID req err hm
        exact ⟨path, content, List.mem_cons_of_mem _ hin, hrest⟩

theorem registerFiles_success {σ : Type} (reg : Registry σ) (fs : FileSystem)
    (protoRoot : String) (importToPath : GoMap String) (fileToImports : GoMap (List String))
    (order : List String) (s : σ)
    (hok : (registerFiles reg fs protoRoot importToPath fileToImports order s).err = none) :
    ∀ path, path ∈ order →
      (∃ content e, fs.ReadFile path = .ok content ∧
        Call.createArtifact "default"
          (createReq fs protoRoot importToPath fileToImports path content) e ∈
          (registerFiles reg fs protoRoot importToPath fileToImports order s).calls) ∧
      Call.getArtifactMetadata "default" (artifactIDOf (relPathOf fs protoRoot path)) none ∈
        (registerFiles reg fs protoRoot importToPath fileToImports order s).calls := by
  induction order generalizing s with
  | nil => simp
  | cons p rest ih =>
    cases hp : (registerFile reg fs protoRoot importToPath fileToImports p s).err with
    | some e =>
      rw [registerFiles_cons_err reg fs protoRoot importToPath fileToImports p rest s e hp, hp]
        at hok
      exact absurd hok (by simp)
    | none =>
      rw [registerFiles_cons_ok reg fs protoRoot importToPath fileToImports p rest s hp] at hok ⊢
      simp only at hok ⊢
      intro path hpath
      rcases List.mem_cons.1 hpath with rfl | hpath
      · rcases registerFile_shape reg fs protoRoot importToPath fileToImports path s with
          ⟨e, -, -, herr⟩ | ⟨content, e, polls, hread, hcalls, -, hget⟩
        · exact absurd hp herr
        · rw [hcalls]
          exact ⟨⟨content, e, hread, by simp⟩,
            List.mem_append_left _ (List.mem_cons_of_mem _ (hget hp))⟩
      · obtain ⟨⟨content, e, hread, hc⟩, hg⟩ := ih _ hok path hpath
        exact ⟨⟨content, e, hread, List.mem_append_right _ hc⟩, List.mem_append_right _ hg⟩

/-! ## `ParseProtoFiles` as a whole -/

theorem ParseProtoFiles_ok (fs : FileSystem) (range : MapRange) (protoRoot : String)
    (st : ScanState) (hscan : scanProtoFiles fs protoRoot = .ok st) :
    ∃ order, ParseProtoFiles fs range protoRoot =
        some (.ok ⟨st.importToPath, st.fileToImports, order⟩) ∧ order.Nodup ∧
      (∀ p, p ∈ order ↔ p ∈ st.importToPath.values) ∧
      (Acyclic st.importToPath st.fileToImports →
        ImportsFirst st.importToPath st.fileToImports order) := by
  have hperm : List.Perm (range.order st.importToPath).values st.importToPath.values :=
    (range.perm st.importToPath).map Prod.snd
  obtain ⟨order, hrun, hnodup, hsub, hall, hord⟩ := topoSort_spec st.importToPath
    st.fileToImports (range.order st.importToPath).values (fun p hp => hperm.mem_iff.1 hp)
  refine ⟨order, ?_, hnodup, fun p => ⟨hsub p, fun hp => hall p (hperm.mem_iff.2 hp)⟩, hord⟩
  simp [ParseProtoFiles, hscan, hrun]

theorem ParseProtoFiles_error (fs : FileSystem) (range : MapRange) (protoRoot : String)
    (e : String) (hscan : scanProtoFiles fs protoRoot = .error e) :
    ParseProtoFiles fs range protoRoot = some (.error e) := by
  simp [ParseProtoFiles, hscan]

/-- C4: every `createArtifact` call of a run belongs to a file of the registration order and is
made in group "default" with the request built for that file, whose reference list is exactly
the file's declared imports that are keys of `importToPath`, in declaration order, each with
the raw import string as name, as identifier the import string with the `.proto` suffix
stripped and every `/` replaced by `-`, group "default" and version "1"; a file with no
resolving import carries the empty list. -/
theorem create_request_references {σ : Type} (reg : Registry σ) (fs : FileSystem)
    (protoRoot : String) (importToPath : GoMap String) (fileToImports : GoMap (List String))
    (order : List String) (s : σ) (groupID : String) (req : CreateArtifactRequest)
    (err : Option String)
    (hcall : Call.createArtifact groupID req err ∈
      (registerFiles reg fs protoRoot importToPath fileToImports order s).calls) :
    ∃ path content, path ∈ order ∧ fs.ReadFile path = .ok content ∧ groupID = "default" ∧
      req = createReq fs protoRoot importToPath fileToImports path content ∧
      req.FirstVersion.Content.References =
        ((importsOf fileToImports path).filter (fun imp => (importToPath.get? imp).isSome)).map
          (fun imp =>
            { Name := imp, ArtifactID := specIdentifier imp, GroupID := "default",
              Version := "1" }) ∧
      ((∀ imp, imp ∈ importsOf fileToImports path → importToPath.get? imp = none) →
        req.FirstVersion.Content.References = []) := by
  obtain ⟨path, content, hin, hread, hg, hreq⟩ :=
    registerFiles_creates reg fs protoRoot importToPath fileToImports order s groupID req err hcall
  have hrefs := createReq_references fs protoRoot importToPath fileToImports path content
  refine ⟨path, content, hin, hread, hg, hreq, ?_, ?_⟩
  · rw [hreq, hrefs, specReferences]
    apply List.map_congr_left
    intro imp _
    rw [refIDOf_eq_specIdentifier]
  · intro hnone
    rw [hreq, hrefs, specReferences]
    have : (importsOf fileToImports path).filter (fun imp => (importToPath.get? imp).isSome) = [] := by
      rw [List.filter_eq_nil_iff]
      intro imp himp
      simp [hnone imp himp]
    rw [this]
    rfl

theorem create_request_references_witness :
    Call.createArtifact "default" msg6Request none ∈
        (registerFiles memRegistry nestedTree "/r" nestedPaths nestedImports
          ["/r/level5/msg5.proto", "/r/level6/msg6.proto"] []).calls ∧
      msg6Request.FirstVersion.Content.References =
        [{ Name := "level5/msg5.proto", ArtifactID := "level5-msg5", GroupID := "default",
           Version := "1" }] ∧
      ∃ path content, path ∈ ["/r/level5/msg5.proto", "/r/level6/msg6.proto"] ∧
        nestedTree.ReadFile path = .ok content ∧ "default" = "default" ∧
        msg6Request = createReq nestedTree "/r" nestedPaths nestedImports path content ∧
        msg6Request.FirstVersion.Content.References =
          ((importsOf nestedImports path).filter
            (fun imp => (nestedPaths.get? imp).isSome)).map
            (fun imp =>
              { Name := imp, ArtifactID := specIdentifier imp, GroupID := "default",
                Version := "1" }) ∧
        ((∀ imp, imp ∈ importsOf nestedImports path → nestedPaths.get? imp = none) →
          msg6Request.FirstVersion.Content.References = []) :=
  ⟨by decide, by decide, create_request_references memRegistry nestedTree "/r" nestedPaths
    nestedImports ["/r/level5/msg5.proto", "/r/level6/msg6.proto"] [] "default" msg6Request none
    (by decide)⟩

/-- C5, counterexample: a creation answered with `500 Internal Server Error (trace 14093)`,
which is no conflict, does not abort the run: its text holds "409", so the file is polled, the
later file is submitted as well, and the run returns no error. -/
theorem server_error_quoting_409_is_not_fatal :
    specConflict "500 Internal Server Error (trace 14093)" = false ∧
      ∃ run, RegisterProtoArtifacts (some tracedRegistry) baseChildTree storedOrder "/r" [] =
          some run ∧
        run.calls =
          [Call.createArtifact "default" baseRequest
              (some "500 Internal Server Error (trace 14093)"),
            Call.getArtifactMetadata "default" "base" none,
            Call.createArtifact "default" childRequest
              (some "500 Internal Server Error (trace 14093)"),
            Call.getArtifactMetadata "default" "child" none] ∧
        run.err = none := by
  refine ⟨by decide, _, rfl, by rfl, by rfl⟩

/-- C5, amended: for a file reached by the run and read without error whose `createArtifact`
call returns the error `e`: if the text of `e` holds "409", the next call of the run is the
first `getArtifactMetadata` poll for that file's identifier; if it does not, the run ends with
that `createArtifact` call, no poll and no later file, and returns
`failed to register <identifier>: <e>`, which contains the identifier. The text of a conflict,
an error of status 409, holds "409". -/
theorem create_conflict_continues_other_error_aborts {σ : Type} (reg : Registry σ)
    (fs : FileSystem) (protoRoot : String) (importToPath : GoMap String)
    (fileToImports : GoMap (List String)) (pre post : List String) (path content : String)
    (s : σ) (e : String)
    (hpre : (registerFiles reg fs protoRoot importToPath fileToImports pre s).err = none)
    (hread : fs.ReadFile path = .ok content)
    (hcreate : (reg.CreateArtifact
      (registerFiles reg fs protoRoot importToPath fileToImports pre s).state "default"
      (createReq fs protoRoot importToPath fileToImports path content)).2 = some e) :
    (Contains e "409" = true →
      ∃ tail, (registerFiles reg fs protoRoot importToPath fileToImports
          (pre ++ path :: post) s).calls =
        (registerFiles reg fs protoRoot importToPath fileToImports pre s).calls ++
          Call.createArtifact "default"
              (createReq fs protoRoot importToPath fileToImports path content) (some e) ::
            Call.getArtifactMetadata "default" (artifactIDOf (relPathOf fs protoRoot path))
              (reg.GetArtifactMetadata
                (reg.CreateArtifact
                  (registerFiles reg fs protoRoot importToPath fileToImports pre s).state
                  "default" (createReq fs protoRoot importToPath fileToImports path content)).1
                "default" (artifactIDOf (relPathOf fs protoRoot path))).2 :: tail) ∧
    (Contains e "409" = false →
      (registerFiles reg fs protoRoot importToPath fileToImports (pre ++ path :: post) s).calls =
        (registerFiles reg fs protoRoot importToPath fileToImports pre s).calls ++
          [Call.createArtifact "default"
            (createReq fs protoRoot importToPath fileToImports path content) (some e)] ∧
      (registerFiles reg fs protoRoot importToPath fileToImports (pre ++ path :: post) s).err =
        some ("failed to register " ++ artifactIDOf (relPathOf fs protoRoot path) ++ ": " ++ e) ∧
      Contains ("failed to register " ++ artifactIDOf (relPathOf fs protoRoot path) ++ ": " ++ e)
        (artifactIDOf (relPathOf fs protoRoot path)) = true) ∧
    (specConflict e = true → Contains e "409" = true) := by
  rw [registerFiles_append_ok reg fs protoRoot importToPath fileToImports pre (path :: post) s hpre]
  simp only
  refine ⟨?_, ?_, specConflict_contains e⟩
  · intro h409
    have hacc : ∀ e1, (reg.CreateArtifact
        (registerFiles reg fs protoRoot importToPath fileToImports pre s).state "default"
        (createReq fs protoRoot importToPath fileToImports path content)).2 = some e1 →
        Contains e1 "409" = true := by
      intro e1 he1
      rw [hcreate] at he1
      exact Option.some.inj he1 ▸ h409
    have hfile := registerFile_accepted reg fs protoRoot importToPath fileToImports path content
      (registerFiles reg fs protoRoot importToPath fileToImports pre s).state hread hacc
    have hpoll : ∃ more, (verifyLoop reg (artifactIDOf (relPathOf fs protoRoot path))
        maxRetriesVerify (reg.CreateArtifact
          (registerFiles reg fs protoRoot importToPath fileToImports pre s).state "default"
          (createReq fs protoRoot importToPath fileToImports path content)).1 none).2.1 =
        Call.getArtifactMetadata "default" (artifactIDOf (relPathOf fs protoRoot path))
          (reg.GetArtifactMetadata (reg.CreateArtifact
            (registerFiles reg fs protoRoot importToPath fileToImports pre s).state "default"
            (createReq fs protoRoot importToPath fileToImports path content)).1 "default"
            (artifactIDOf (relPathOf fs protoRoot path))).2 :: more := by
      cases hg : (reg.GetArtifactMetadata (reg.CreateArtifact
          (registerFiles reg fs protoRoot importToPath fileToImports pre s).state "default"
          (createReq fs protoRoot importToPath fileToImports path content)).1 "default"
          (artifactIDOf (relPathOf fs protoRoot path))).2 with
      | none => exact ⟨[], by rw [maxRetriesVerify, verifyLoop_succ_none _ _ _ _ _ hg]⟩
      | some e1 => exact ⟨_, by rw [maxRetriesVerify, verifyLoop_succ_some _ _ _ _ _ e1 hg]⟩
    obtain ⟨more, hmore⟩ := hpoll
    cases herr : (registerFile reg fs protoRoot importToPath fileToImports path
        (registerFiles reg fs protoRoot importToPath fileToImports pre s).state).err with
    | some e1 =>
      rw [registerFiles_cons_err reg fs protoRoot importToPath fileToImports path post _ e1 herr,
        hfile]
      simp only [hcreate, hmore]
      exact ⟨more, rfl⟩
    | none =>
      rw [registerFiles_cons_ok reg fs protoRoot importToPath fileToImports path post _ herr,
        hfile]
      simp only [hcreate, hmore]
      exact ⟨_, by simp; rfl⟩
  · intro h409
    have hfile := registerFile_rejected reg fs protoRoot importToPath fileToImports path content
      (registerFiles reg fs protoRoot importToPath fileToImports pre s).state e hread hcreate h409
    rw [registerFiles_cons_err reg fs protoRoot importToPath fileToImports path post _ _
      (by rw [hfile]), hfile]
    exact ⟨rfl, rfl, Contains_message _ _ _ _⟩

theorem create_conflict_continues_other_error_aborts_witness :
    (∃ tail, (registerFiles memRegistry baseChildTree "/r" baseChildPaths baseChildImports
          ([] ++ "/r/base.proto" :: ["/r/child.proto"]) ["base"]).calls =
        (registerFiles memRegistry baseChildTree "/r" baseChildPaths baseChildImports [] ["base"]).calls ++
          Call.createArtifact "default"
              (createReq baseChildTree "/r" baseChildPaths baseChildImports "/r/base.proto"
                "syntax = proto3;\n") (some "409 Conflict: artifact already exists") ::
            Call.getArtifactMetadata "default" (artifactIDOf (relPathOf baseChildTree "/r" "/r/base.proto"))
              (memRegistry.GetArtifactMetadata
                (memRegistry.CreateArtifact
                  (registerFiles memRegistry baseChildTree "/r" baseChildPaths baseChildImports []
                    ["base"]).state
                  "default" (createReq baseChildTree "/r" baseChildPaths baseChildImports
                    "/r/base.proto" "syntax = proto3;\n")).1
                "default" (artifactIDOf (relPathOf baseChildTree "/r" "/r/base.proto"))).2 :: tail) ∧
    (registerFiles brokenRegistry baseChildTree "/r" baseChildPaths baseChildImports
        ([] ++ "/r/base.proto" :: ["/r/child.proto"]) []).err =
      some ("failed to register " ++ artifactIDOf (relPathOf baseChildTree "/r" "/r/base.proto") ++
        ": " ++ "500 Internal Server Error") :=
  ⟨(create_conflict_continues_other_error_aborts memRegistry baseChildTree "/r" baseChildPaths
      baseChildImports [] ["/r/child.proto"] "/r/base.proto" "syntax = proto3;\n" ["base"]
      "409 Conflict: artifact already exists" (by rfl) (by rfl) (by rfl)).1 (by decide),
    ((create_conflict_continues_other_error_aborts brokenRegistry baseChildTree "/r"
      baseChildPaths baseChildImports [] ["/r/child.proto"] "/r/base.proto" "syntax = proto3;\n"
      [] "500 Internal Server Error" (by rfl) (by rfl) (by rfl)).2.1 (by decide)).2.1⟩

/-- C6: for a file reached by the run, read without error, whose `createArtifact` call is
accepted (no error, or the conflict signal): if every polling attempt for its identifier fails,
the run makes exactly 5 `getArtifactMetadata` calls for it after the `createArtifact` call and
ends there, with no call for any later file, returning an error that contains the identifier;
if attempt `k + 1` (of at most 5) is the first to succeed, the polling ends with that attempt
and the run goes on with the later files. -/
theorem verification_stops_after_five_failures {σ : Type} (reg : Registry σ)
    (fs : FileSystem) (protoRoot : String) (importToPath : GoMap String)
    (fileToImports : GoMap (List String)) (pre post : List String) (path content : String)
    (s : σ)
    (hpre : (registerFiles reg fs protoRoot importToPath fileToImports pre s).err = none)
    (hread : fs.ReadFile path = .ok content)
    (hcreate : ∀ e, (reg.CreateArtifact
      (registerFiles reg fs protoRoot importToPath fileToImports pre s).state "default"
      (createReq fs protoRoot importToPath fileToImports path content)).2 = some e →
        Contains e "409" = true) :
    ((∀ k, k < 5 → (reg.GetArtifactMetadata
        (pollState reg (artifactIDOf (relPathOf fs protoRoot path)) k
          (reg.CreateArtifact
            (registerFiles reg fs protoRoot importToPath fileToImports pre s).state "default"
            (createReq fs protoRoot importToPath fileToImports path content)).1)
        "default" (artifactIDOf (relPathOf fs protoRoot path))).2 ≠ none) →
      ∃ polls e,
        (registerFiles reg fs protoRoot importToPath fileToImports (pre ++ path :: post) s).calls =
          (registerFiles reg fs protoRoot importToPath fileToImports pre s).calls ++
            Call.createArtifact "default"
              (createReq fs protoRoot importToPath fileToImports path content)
              (reg.CreateArtifact
                (registerFiles reg fs protoRoot importToPath fileToImports pre s).state "default"
                (createReq fs protoRoot importToPath fileToImports path content)).2 :: polls ∧
        polls.length = 5 ∧
        (∀ c, c ∈ polls → ∃ e1, c = Call.getArtifactMetadata "default"
          (artifactIDOf (relPathOf fs protoRoot path)) (some e1)) ∧
        (registerFiles reg fs protoRoot importToPath fileToImports (pre ++ path :: post) s).err =
          some ("failed to verify registration of " ++
            artifactIDOf (relPathOf fs protoRoot path) ++ " after retries: " ++ e) ∧
        Contains ("failed to verify registration of " ++
            artifactIDOf (relPathOf fs protoRoot path) ++ " after retries: " ++ e)
          (artifactIDOf (relPathOf fs protoRoot path)) = true) ∧
    (∀ k, k < 5 →
      (∀ j, j < k → (reg.GetArtifactMetadata
        (pollState reg (artifactIDOf (relPathOf fs protoRoot path)) j
          (reg.CreateArtifact
            (registerFiles reg fs protoRoot importToPath fileToImports pre s).state "default"
            (createReq fs protoRoot importToPath fileToImports path content)).1)
        "default" (artifactIDOf (relPathOf fs protoRoot path))).2 ≠ none) →
      (reg.GetArtifactMetadata
        (pollState reg (artifactIDOf (relPathOf fs protoRoot path)) k
          (reg.CreateArtifact
            (registerFiles reg fs protoRoot importToPath fileToImports pre s).state "default"
            (createReq fs protoRoot importToPath fileToImports path content)).1)
        "default" (artifactIDOf (relPathOf fs protoRoot path))).2 = none →
      ∃ fails,
        (registerFiles reg fs protoRoot importToPath fileToImports (pre ++ path :: post) s).calls =
          (registerFiles reg fs protoRoot importToPath fileToImports pre s).calls ++
            (Call.createArtifact "default"
              (createReq fs protoRoot importToPath fileToImports path content)
              (reg.CreateArtifact
                (registerFiles reg fs protoRoot importToPath fileToImports pre s).state "default"
                (createReq fs protoRoot importToPath fileToImports path content)).2 ::
              (fails ++ [Call.getArtifactMetadata "default"
                (artifactIDOf (relPathOf fs protoRoot path)) none])) ++
            (registerFiles reg fs protoRoot importToPath fileToImports post
              (reg.GetArtifactMetadata
                (pollState reg (artifactIDOf (relPathOf fs protoRoot path)) k
                  (reg.CreateArtifact
                    (registerFiles reg fs protoRoot importToPath fileToImports pre s).state
                    "default" (createReq fs protoRoot importToPath fileToImports path content)).1)
                "default" (artifactIDOf (relPathOf fs protoRoot path))).1).calls ∧
        fails.length = k ∧
        ∀ c, c ∈ fails → ∃ e1, c = Call.getArtifactMetadata "default"
          (artifactIDOf (relPathOf fs protoRoot path)) (some e1)) := by
  rw [registerFiles_append_ok reg fs protoRoot importToPath fileToImports pre (path :: post) s hpre]
  have hfile := registerFile_accepted reg fs protoRoot importToPath fileToImports path content
    (registerFiles reg fs protoRoot importToPath fileToImports pre s).state hread hcreate
  simp only
  constructor
  · intro hfail
    obtain ⟨polls, e, hrun, hlen, hall⟩ := verifyLoop_all_fail reg
      (artifactIDOf (relPathOf fs protoRoot path)) 4 _ none hfail
    have hrun5 : verifyLoop reg (artifactIDOf (relPathOf fs protoRoot path)) maxRetriesVerify
        (reg.CreateArtifact
          (registerFiles reg fs protoRoot importToPath fileToImports pre s).state "default"
          (createReq fs protoRoot importToPath fileToImports path content)).1 none = _ := hrun
    rw [hrun5] at hfile
    simp only [Option.map_some'] at hfile
    rw [registerFiles_cons_err reg fs protoRoot importToPath fileToImports path post _ _
      (by rw [hfile]), hfile]
    exact ⟨polls, e, rfl, hlen, hall, rfl, Contains_message _ _ _ _⟩
  · intro k hk hfail hok
    obtain ⟨fails, hrun, hlen, hall⟩ := verifyLoop_first_success reg
      (artifactIDOf (relPathOf fs protoRoot path)) maxRetriesVerify k _ none hk hfail hok
    rw [hrun] at hfile
    simp only [Option.map_none'] at hfile
    rw [registerFiles_cons_ok reg fs protoRoot importToPath fileToImports path post _
      (by rw [hfile]), hfile]
    exact ⟨fails, by simp, hlen, hall⟩

theorem verification_stops_after_five_failures_witness :
    ∃ polls e,
      (registerFiles blindRegistry baseChildTree "/r" baseChildPaths baseChildImports
          ([] ++ "/r/base.proto" :: ["/r/child.proto"]) []).calls =
        (registerFiles blindRegistry baseChildTree "/r" baseChildPaths baseChildImports [] []).calls ++
          Call.createArtifact "default"
            (createReq baseChildTree "/r" baseChildPaths baseChildImports "/r/base.proto"
              "syntax = proto3;\n")
            (blindRegistry.CreateArtifact
              (registerFiles blindRegistry baseChildTree "/r" baseChildPaths baseChildImports []
                []).state "default"
              (createReq baseChildTree "/r" baseChildPaths baseChildImports "/r/base.proto"
                "syntax = proto3;\n")).2 :: polls ∧
      polls.length = 5 ∧
      (∀ c, c ∈ polls → ∃ e1, c = Call.getArtifactMetadata "default"
        (artifactIDOf (relPathOf baseChildTree "/r" "/r/base.proto")) (some e1)) ∧
      (registerFiles blindRegistry baseChildTree "/r" baseChildPaths baseChildImports
          ([] ++ "/r/base.proto" :: ["/r/child.proto"]) []).err =
        some ("failed to verify registration of " ++
          artifactIDOf (relPathOf baseChildTree "/r" "/r/base.proto") ++ " after retries: " ++ e) ∧
      Contains ("failed to verify registration of " ++
          artifactIDOf (relPathOf baseChildTree "/r" "/r/base.proto") ++ " after retries: " ++ e)
        (artifactIDOf (relPathOf baseChildTree "/r" "/r/base.proto")) = true :=
  (verification_stops_after_five_failures blindRegistry baseChildTree "/r" baseChildPaths
    baseChildImports [] ["/r/child.proto"] "/r/base.proto" "syntax = proto3;\n" [] (by rfl)
    (by rfl) (by intro e he; simp [blindRegistry] at he)).1
    (by intro k _; simp [blindRegistry])

/-- C9: `RegisterProtoArtifacts` returns, and when it returns no error then, for every file of
the order returned by a call of `ParseProtoFiles` on the same tree (whatever order its `range`
yields), the run made a `createArtifact` call in group "default" under the file's identifier,
which is its path relative to the scan root with the `.proto` suffix stripped and every `/`
replaced by `-`, and a `getArtifactMetadata` call for group "default" and that identifier
returned no error. -/
theorem successful_run_registers_every_file {σ : Type} (reg : Registry σ) (fs : FileSystem)
    (range range2 : MapRange) (protoRoot : String) (s : σ) :
    ∃ run, RegisterProtoArtifacts (some reg) fs range protoRoot s = some run ∧
      (run.err = none → ∀ parsed, ParseProtoFiles fs range2 protoRoot = some (.ok parsed) →
        ∀ path, path ∈ parsed.sortedFiles →
          (∃ req e, Call.createArtifact "default" req e ∈ run.calls ∧
            req.ArtifactID = specIdentifier (relPathOf fs protoRoot path)) ∧
          Call.getArtifactMetadata "default" (specIdentifier (relPathOf fs protoRoot path))
            none ∈ run.calls) := by
  cases hscan : scanProtoFiles fs protoRoot with
  | error e =>
    refine ⟨⟨s, [], some ("failed to parse proto files: " ++ e)⟩, ?_, ?_⟩
    · simp [RegisterProtoArtifacts, ParseProtoFiles_error fs range protoRoot e hscan]
    · intro h
      simp at h
  | ok st =>
    obtain ⟨order, hparse, -, hmem, -⟩ := ParseProtoFiles_ok fs range protoRoot st hscan
    obtain ⟨order2, hparse2, -, hmem2, -⟩ := ParseProtoFiles_ok fs range2 protoRoot st hscan
    refine ⟨registerFiles reg fs protoRoot st.importToPath st.fileToImports order s, ?_, ?_⟩
    · simp [RegisterProtoArtifacts, hparse]
    · intro herr parsed hparsed path hpath
      rw [hparse2] at hparsed
      simp only [Option.some.injEq, Except.ok.injEq] at hparsed
      subst hparsed
      have hin : path ∈ order := (hmem path).2 ((hmem2 path).1 hpath)
      obtain ⟨⟨content, e, -, hc⟩, hg⟩ := registerFiles_success reg fs protoRoot st.importToPath
        st.fileToImports order s herr path hin
      rw [artifactIDOf_eq_specIdentifier] at hg
      exact ⟨⟨_, e, hc, artifactIDOf_eq_specIdentifier _⟩, hg⟩

theorem successful_run_registers_every_file_witness :
    (RegisterProtoArtifacts (some memRegistry) nestedTree reversedOrder "/r" []).map
        (fun run => (run.state, run.err)) = some (["level5-msg5", "level6-msg6"], none) ∧
      ParseProtoFiles nestedTree storedOrder "/r" =
        some (.ok ⟨nestedPaths, nestedImports,
          ["/r/level5/msg5.proto", "/r/level6/msg6.proto"]⟩) ∧
      specIdentifier (relPathOf nestedTree "/r" "/r/level6/msg6.proto") = "level6-msg6" ∧
      ∃ run, RegisterProtoArtifacts (some memRegistry) nestedTree reversedOrder "/r" [] =
          some run ∧
        (run.err = none → ∀ parsed,
          ParseProtoFiles nestedTree storedOrder "/r" = some (.ok parsed) →
          ∀ path, path ∈ parsed.sortedFiles →
            (∃ req e, Call.createArtifact "default" req e ∈ run.calls ∧
              req.ArtifactID = specIdentifier (relPathOf nestedTree "/r" path)) ∧
            Call.getArtifactMetadata "default"
              (specIdentifier (relPathOf nestedTree "/r" path)) none ∈ run.calls) :=
  ⟨by rfl, by rfl, by decide, successful_run_registers_every_file memRegistry nestedTree
    reversedOrder storedOrder "/r" []⟩

/-! ## The scan and the relative paths -/

theorem walkFn_rel (fs : FileSystem) (protoRoot : String) (st st1 : ScanState) (w : WalkStep)
    (hinv : ∀ k v, st.importToPath.get? k = some v → fs.Rel protoRoot v = .ok k)
    (hstep : walkFn fs protoRoot st w = .ok st1) :
    ∀ k v, st1.importToPath.get? k = some v → fs.Rel protoRoot v = .ok k := by
  unfold walkFn at hstep
  split at hstep
  · exact absurd hstep (by simp)
  · split at hstep
    · simp only [Except.ok.injEq] at hstep
      rw [← hstep]
      exact hinv
    · split at hstep
      · exact absurd hstep (by simp)
      · rename_i relPath hrel
        split at hstep
        · exact absurd hstep (by simp)
        · split at hstep
          · exact absurd hstep (by simp)
          · simp only [Except.ok.injEq] at hstep
            rw [← hstep]
            intro k v hkv
            simp only [GoMap.get?_set] at hkv
            by_cases hk : relPath = k
            · simp only [hk, if_true, Option.some.injEq] at hkv
              rw [← hkv, ← hk]
              exact hrel
            · simp only [hk, if_false] at hkv
              exact hinv k v hkv

theorem walkAll_rel (fs : FileSystem) (protoRoot : String) (steps : List WalkStep)
    (st st1 : ScanState)
    (hinv : ∀ k v, st.importToPath.get? k = some v → fs.Rel protoRoot v = .ok k)
    (hwalk : walkAll fs protoRoot steps st = .ok st1) :
    ∀ k v, st1.importToPath.get? k = some v → fs.Rel protoRoot v = .ok k := by
  induction steps generalizing st with
  | nil =>
    simp only [walkAll, Except.ok.injEq] at hwalk
    rw [← hwalk]
    exact hinv
  | cons w rest ih =>
    simp only [walkAll] at hwalk
    cases hw : walkFn fs protoRoot st w with
    | error e =>
      rw [hw] at hwalk
      exact absurd hwalk (by simp)
    | ok st2 =>
      rw [hw] at hwalk
      exact ih st2 (walkFn_rel fs protoRoot st st2 w hinv hw) hwalk

theorem scanProtoFiles_rel (fs : FileSystem) (protoRoot : String) (st : ScanState)
    (hscan : scanProtoFiles fs protoRoot = .ok st) :
    ∀ k v, st.importToPath.get? k = some v → relPathOf fs protoRoot v = k := by
  intro k v hkv
  unfold scanProtoFiles at hscan
  cases hw : walkAll fs protoRoot (fs.WalkDir protoRoot) ⟨[], []⟩ with
  | error e =>
    rw [hw] at hscan
    exact absurd hscan (by simp)
  | ok st2 =>
    rw [hw] at hscan
    simp only [Except.ok.injEq] at hscan
    subst hscan
    have := walkAll_rel fs protoRoot _ ⟨[], []⟩ st2 (by simp [GoMap.get?]) hw k v hkv
    simp [relPathOf, this]

/-! ## References and confirmations -/

theorem refsOk_append (seen a b : List Call) :
    refsOk seen (a ++ b) = (refsOk seen a && refsOk (seen ++ a) b) := by
  induction a generalizing seen with
  | nil => simp [refsOk]
  | cons c cs ih =>
    rw [List.cons_append]
    simp only [refsOk, ih, Bool.and_assoc, List.append_assoc, List.singleton_append]

theorem refsOk_polls (seen polls : List Call)
    (h : ∀ c, c ∈ polls → ∃ g a e, c = Call.getArtifactMetadata g a e) :
    refsOk seen polls = true := by
  induction polls generalizing seen with
  | nil => rfl
  | cons c cs ih =>
    obtain ⟨g, a, e, rfl⟩ := h c (List.mem_cons_self _ _)
    simp only [refsOk, Bool.true_and]
    exact ih _ (fun c hc => h c (List.mem_cons_of_mem _ hc))

theorem refsOk_sound (seen calls pre post : List Call) (groupID : String)
    (req : CreateArtifactRequest) (err : Option String) (hok : refsOk seen calls = true)
    (hsplit : calls = pre ++ Call.createArtifact groupID req err :: post) :
    ∀ r, r ∈ req.FirstVersion.Content.References →
      Call.getArtifactMetadata r.GroupID r.ArtifactID none ∈ seen ++ pre := by
  induction pre generalizing seen calls with
  | nil =>
    subst hsplit
    simp only [List.nil_append, refsOk, Bool.and_eq_true, List.all_eq_true,
      decide_eq_true_eq] at hok
    intro r hr
    simpa using hok.1 r hr
  | cons c cs ih =>
    subst hsplit
    simp only [List.cons_append, refsOk, Bool.and_eq_true] at hok
    intro r hr
    have := ih (seen ++ [c]) _ hok.2 rfl r hr
    simpa using this

theorem mem_left_of_before (l1 l2 a b c : List String) (path G : String)
    (hnodup : (l1 ++ path :: l2).Nodup)
    (h : l1 ++ path :: l2 = a ++ G :: (b ++ path :: c)) : G ∈ l1 := by
  have h1 : l1 ++ path :: l2 = (a ++ G :: b) ++ path :: c := by simp [h]
  rcases List.append_eq_append_iff.1 h1 with ⟨x, hx1, hx2⟩ | ⟨x, hx1, hx2⟩
  · cases x with
    | nil =>
      simp only [List.append_nil] at hx1
      rw [← hx1]
      simp
    | cons y ys =>
      exfalso
      simp only [List.cons_append, List.cons.injEq] at hx2
      have hmem : path ∈ l2 := by
        rw [hx2.2]
        simp
      exact (List.nodup_cons.1 (List.nodup_append.1 hnodup).2.1).1 hmem
  · rw [hx1]
    simp

theorem registerFiles_refsOk {σ : Type} (reg : Registry σ) (fs : FileSystem)
    (protoRoot : String) (importToPath : GoMap String) (fileToImports : GoMap (List String))
    (order : List String) (seen : List Call) (s : σ)
    (href : ∀ l1 path l2, order = l1 ++ path :: l2 →
      ∀ r, r ∈ specReferences importToPath (importsOf fileToImports path) →
        Call.getArtifactMetadata r.GroupID r.ArtifactID none ∈ seen ∨
        ∃ p, p ∈ l1 ∧ r.GroupID = "default" ∧
          r.ArtifactID = artifactIDOf (relPathOf fs protoRoot p)) :
    refsOk seen (registerFiles reg fs protoRoot importToPath fileToImports order s).calls = true := by
  induction order generalizing seen s with
  | nil => simp [registerFiles, refsOk]
  | cons p rest ih =>
    have hhead : refsOk seen
        (registerFile reg fs protoRoot importToPath fileToImports p s).calls = true := by
      rcases registerFile_shape reg fs protoRoot importToPath fileToImports p s with
        ⟨e, -, hcalls, -⟩ | ⟨content, e, polls, -, hcalls, hpolls, -⟩
      · rw [hcalls]
        rfl
      · rw [hcalls]
        simp only [refsOk, Bool.and_eq_true, List.all_eq_true, decide_eq_true_eq]
        constructor
        · intro r hr
          rw [createReq_references] at hr
          rcases href [] p rest rfl r hr with h | ⟨q, hq, -⟩
          · exact h
          · exact absurd hq (List.not_mem_nil _)
        · exact refsOk_polls _ _ (fun c hc => by
            obtain ⟨e1, he1⟩ := hpolls c hc
            exact ⟨_, _, e1, he1⟩)
    cases hp : (registerFile reg fs protoRoot importToPath fileToImports p s).err with
    | some e =>
      rw [registerFiles_cons_err reg fs protoRoot importToPath fileToImports p rest s e hp]
      exact hhead
    | none =>
      rw [registerFiles_cons_ok reg fs protoRoot importToPath fileToImports p rest s hp]
      simp only [refsOk_append, Bool.and_eq_true]
      refine ⟨hhead, ih _ _ ?_⟩
      intro l1 path l2 hsplit r hr
      rcases href (p :: l1) path l2 (by rw [hsplit, List.cons_append]) r hr with
        h | ⟨q, hq, hg, hid⟩
      · exact Or.inl (List.mem_append_left _ h)
      · rcases List.mem_cons.1 hq with rfl | hq
        · left
          apply List.mem_append_right
          rcases registerFile_shape reg fs protoRoot importToPath fileToImports q s with
            ⟨e, -, -, herr⟩ | ⟨content, e, polls, -, hcalls, -, hget⟩
          · exact absurd hp herr
          · rw [hcalls, hg, hid]
            exact List.mem_cons_of_mem _ (hget hp)
        · exact Or.inr ⟨q, hq, hg, hid⟩

/-- C7, counterexample: in the tree where `a.proto` and `b.proto` import each other the run
succeeds, and its first call submits `b` with a reference to `a` although no
`getArtifactMetadata` call for `a` has been made. -/
theorem cyclic_imports_submit_unconfirmed_reference :
    ∃ run, RegisterProtoArtifacts (some memRegistry) cycleTree storedOrder "/r" [] = some run ∧
      run.err = none ∧
      run.calls.head? = some (Call.createArtifact "default" cycleFirstRequest none) ∧
      ¬ RefsConfirmed run.calls := by
  refine ⟨_, rfl, by rfl, by rfl, ?_⟩
  intro h
  have hcall := h [] "default" cycleFirstRequest none _ (by rfl)
    { Name := "a.proto", ArtifactID := "a", GroupID := "default", Version := "1" }
    (List.mem_singleton_self _)
  exact absurd hcall (List.not_mem_nil _)

/-- C7, amended: when the locally resolvable import edges of the scanned tree form no cycle,
the run returns and, in its sequence of registry calls, every reference carried by a
`createArtifact` request was preceded by a `getArtifactMetadata` call for the referenced group
and identifier that returned no error. -/
theorem references_confirmed_when_acyclic {σ : Type} (reg : Registry σ) (fs : FileSystem)
    (range : MapRange) (protoRoot : String) (s : σ)
    (hacyclic : ∀ st, scanProtoFiles fs protoRoot = .ok st →
      Acyclic st.importToPath st.fileToImports) :
    ∃ run, RegisterProtoArtifacts (some reg) fs range protoRoot s = some run ∧
      RefsConfirmed run.calls := by
  cases hscan : scanProtoFiles fs protoRoot with
  | error e =>
    refine ⟨⟨s, [], some ("failed to parse proto files: " ++ e)⟩, ?_, ?_⟩
    · simp [RegisterProtoArtifacts, ParseProtoFiles_error fs range protoRoot e hscan]
    · intro pre groupID req err post hsplit
      simp at hsplit
  | ok st =>
    obtain ⟨order, hparse, hnodup, hmem, hord⟩ := ParseProtoFiles_ok fs range protoRoot st hscan
    have hfirst := hord (hacyclic st hscan)
    refine ⟨registerFiles reg fs protoRoot st.importToPath st.fileToImports order s, ?_, ?_⟩
    · simp [RegisterProtoArtifacts, hparse]
    · have hok := registerFiles_refsOk reg fs protoRoot st.importToPath st.fileToImports order
        [] s (by
          intro l1 path l2 hsplit r hr
          right
          simp only [specReferences, List.mem_map, List.mem_filter] at hr
          obtain ⟨imp, ⟨himp, hsome⟩, rfl⟩ := hr
          obtain ⟨G, hG⟩ := Option.isSome_iff_exists.1 hsome
          have hpath : path ∈ order := by
            rw [hsplit]
            simp
          obtain ⟨a, b, c, habc⟩ := hfirst path hpath G ⟨imp, himp, hG⟩
          refine ⟨G, mem_left_of_before l1 l2 a b c path G (hsplit ▸ hnodup)
            (hsplit ▸ habc), rfl, ?_⟩
          rw [scanProtoFiles_rel fs protoRoot st hscan imp G hG]
          rfl)
      intro pre groupID req err post hsplit r hr
      simpa using refsOk_sound [] _ pre post groupID req err hok hsplit r hr

theorem references_confirmed_when_acyclic_witness :
    scanProtoFiles baseChildTree "/r" = .ok ⟨baseChildPaths, baseChildImports⟩ ∧
      ∃ run, RegisterProtoArtifacts (some memRegistry) baseChildTree reversedOrder "/r" [] =
          some run ∧ RefsConfirmed run.calls :=
  ⟨by rfl, references_confirmed_when_acyclic memRegistry baseChildTree reversedOrder "/r" []
    (by
      intro st hst
      have hscan : scanProtoFiles baseChildTree "/r" = .ok ⟨baseChildPaths, baseChildImports⟩ := by
        rfl
      rw [hscan] at hst
      simp only [Except.ok.injEq] at hst
      rw [← hst]
      exact baseChild_acyclic)⟩

/-! ## Re-running against a populated registry -/

theorem verifyLoop_keeps {σ κ : Type} (reg : Registry σ) (contents : σ → κ)
    (present : κ → String → Prop) (hreg : IdempotentRegistry reg contents present)
    (artifactID other : String) (n : Nat) (s : σ) (v : Option String)
    (h : present (contents s) other) :
    present (contents (verifyLoop reg artifactID n s v).1) other := by
  induction n generalizing s v with
  | zero => exact h
  | succ n ih =>
    cases hg : (reg.GetArtifactMetadata s "default" artifactID).2 with
    | none =>
      rw [verifyLoop_succ_none reg artifactID n s v hg]
      exact hreg.get_keeps s artifactID other h
    | some e =>
      rw [verifyLoop_succ_some reg artifactID n s v e hg]
      exact ih _ _ (hreg.get_keeps s artifactID other h)

theorem verifyLoop_shows {σ κ : Type} (reg : Registry σ) (contents : σ → κ)
    (present : κ → String → Prop) (hreg : IdempotentRegistry reg contents present)
    (artifactID : String) (n : Nat) (s : σ) (v : Option String)
    (h : (verifyLoop reg artifactID (n + 1) s v).2.2 = none) :
    present (contents (verifyLoop reg artifactID (n + 1) s v).1) artifactID := by
  induction n generalizing s v with
  | zero =>
    cases hg : (reg.GetArtifactMetadata s "default" artifactID).2 with
    | none =>
      rw [verifyLoop_succ_none reg artifactID 0 s v hg]
      exact hreg.get_shows s artifactID hg
    | some e =>
      rw [verifyLoop_succ_some reg artifactID 0 s v e hg] at h
      simp [verifyLoop] at h
  | succ n ih =>
    cases hg : (reg.GetArtifactMetadata s "default" artifactID).2 with
    | none =>
      rw [verifyLoop_succ_none reg artifactID (n + 1) s v hg]
      exact hreg.get_shows s artifactID hg
    | some e =>
      rw [verifyLoop_succ_some reg artifactID (n + 1) s v e hg] at h ⊢
      exact ih _ _ h

theorem registerFile_cases {σ : Type} (reg : Registry σ) (fs : FileSystem)
    (protoRoot : String) (importToPath : GoMap String) (fileToImports : GoMap (List String))
    (path : String) (s : σ) :
    (∃ e, fs.ReadFile path = .error e ∧
      (registerFile reg fs protoRoot importToPath fileToImports path s).state = s ∧
      (registerFile reg fs protoRoot importToPath fileToImports path s).err ≠ none) ∨
    (∃ content, fs.ReadFile path = .ok content ∧
      (registerFile reg fs protoRoot importToPath fileToImports path s).state =
        (reg.CreateArtifact s "default"
          (createReq fs protoRoot importToPath fileToImports path content)).1 ∧
      (registerFile reg fs protoRoot importToPath fileToImports path s).err ≠ none) ∨
    ∃ content, fs.ReadFile path = .ok content ∧
      (registerFile reg fs protoRoot importToPath fileToImports path s).state =
        (verifyLoop reg (artifactIDOf (relPathOf fs protoRoot path)) (4 + 1)
          (reg.CreateArtifact s "default"
            (createReq fs protoRoot importToPath fileToImports path content)).1 none).1 ∧
      ((registerFile reg fs protoRoot importToPath fileToImports path s).err = none →
        (verifyLoop reg (artifactIDOf (relPathOf fs protoRoot path)) (4 + 1)
          (reg.CreateArtifact s "default"
            (createReq fs protoRoot importToPath fileToImports path content)).1 none).2.2 =
          none) := by
  cases hread : fs.ReadFile path with
  | error e =>
    left
    rw [registerFile_read_error reg fs protoRoot importToPath fileToImports path s e hread]
    exact ⟨e, rfl, rfl, by simp⟩
  | ok content =>
    right
    by_cases hrej : ∃ e, (reg.CreateArtifact s "default"
        (createReq fs protoRoot importToPath fileToImports path content)).2 = some e ∧
        Contains e "409" = false
    · left
      obtain ⟨e, he, h409⟩ := hrej
      rw [registerFile_rejected reg fs protoRoot importToPath fileToImports path content s e hread
        he h409]
      exact ⟨content, rfl, rfl, by simp⟩
    · right
      have hacc : ∀ e, (reg.CreateArtifact s "default"
          (createReq fs protoRoot importToPath fileToImports path content)).2 = some e →
          Contains e "409" = true := by
        intro e he
        by_contra hc
        exact hrej ⟨e, he, by simpa using hc⟩
      rw [registerFile_accepted reg fs protoRoot importToPath fileToImports path content s hread
        hacc]
      refine ⟨content, rfl, rfl, ?_⟩
      intro herr
      simpa only [Option.map_eq_none'] using herr

theorem registerFile_keeps {σ κ : Type} (reg : Registry σ) (contents : σ → κ)
    (present : κ → String → Prop) (hreg : IdempotentRegistry reg contents present)
    (fs : FileSystem) (protoRoot : String) (importToPath : GoMap String)
    (fileToImports : GoMap (List String)) (path other : String) (s : σ)
    (h : present (contents s) other) :
    present (contents (registerFile reg fs protoRoot importToPath fileToImports path s).state)
      other := by
  rcases registerFile_cases reg fs protoRoot importToPath fileToImports path s with
    ⟨e, -, hst, -⟩ | ⟨content, -, hst, -⟩ | ⟨content, -, hst, -⟩
  · rw [hst]
    exact h
  · rw [hst]
    exact hreg.create_keeps s _ other h
  · rw [hst]
    exact verifyLoop_keeps reg contents present hreg _ other _ _ _
      (hreg.create_keeps s _ other h)

theorem registerFile_shows {σ κ : Type} (reg : Registry σ) (contents : σ → κ)
    (present : κ → String → Prop) (hreg : IdempotentRegistry reg contents present)
    (fs : FileSystem) (protoRoot : String) (importToPath : GoMap String)
    (fileToImports : GoMap (List String)) (path : String) (s : σ)
    (hok : (registerFile reg fs protoRoot importToPath fileToImports path s).err = none) :
    present (contents (registerFile reg fs protoRoot importToPath fileToImports path s).state)
        (artifactIDOf (relPathOf fs protoRoot path)) ∧
      ∃ content, fs.ReadFile path = .ok content := by
  rcases registerFile_cases reg fs protoRoot importToPath fileToImports path s with
    ⟨e, -, -, herr⟩ | ⟨content, -, -, herr⟩ | ⟨content, hread, hst, hnone⟩
  · exact absurd hok herr
  · exact absurd hok herr
  · rw [hst]
    exact ⟨verifyLoop_shows reg contents present hreg _ 4 _ none (hnone hok), content, hread⟩

theorem registerFiles_shows {σ κ : Type} (reg : Registry σ) (contents : σ → κ)
    (present : κ → String → Prop) (hreg : IdempotentRegistry reg contents present)
    (fs : FileSystem) (protoRoot : String) (importToPath : GoMap String)
    (fileToImports : GoMap (List String)) (order : List String) (s : σ)
    (hok : (registerFiles reg fs protoRoot importToPath fileToImports order s).err = none) :
    (∀ other, present (contents s) other →
      present (contents (registerFiles reg fs protoRoot importToPath fileToImports order s).state)
        other) ∧
    ∀ path, path ∈ order →
      present (contents (registerFiles reg fs protoRoot importToPath fileToImports order s).state)
        (artifactIDOf (relPathOf fs protoRoot path)) ∧
      ∃ content, fs.ReadFile path = .ok content := by
  induction order generalizing s with
  | nil => exact ⟨fun other h => h, by simp⟩
  | cons p rest ih =>
    cases hp : (registerFile reg fs protoRoot importToPath fileToImports p s).err with
    | some e =>
      rw [registerFiles_cons_err reg fs protoRoot importToPath fileToImports p rest s e hp, hp]
        at hok
      exact absurd hok (by simp)
    | none =>
      rw [registerFiles_cons_ok reg fs protoRoot importToPath fileToImports p rest s hp] at hok ⊢
      simp only at hok ⊢
      obtain ⟨hkeep, hshow⟩ := ih _ hok
      obtain ⟨hpres, hread⟩ := registerFile_shows reg contents present hreg fs protoRoot
        importToPath fileToImports p s hp
      refine ⟨fun other h => hkeep other (registerFile_keeps reg contents present hreg fs
        protoRoot importToPath fileToImports p other s h), ?_⟩
      intro path hpath
      rcases List.mem_cons.1 hpath with rfl | hpath
      · exact ⟨hkeep _ hpres, hread⟩
      · exact hshow path hpath

theorem registerFile_existing {σ κ : Type} (reg : Registry σ) (contents : σ → κ)
    (present : κ → String → Prop) (hreg : IdempotentRegistry reg contents present)
    (fs : FileSystem) (protoRoot : String) (importToPath : GoMap String)
    (fileToImports : GoMap (List String)) (path content : String) (s : σ)
    (hpres : present (contents s) (artifactIDOf (relPathOf fs protoRoot path)))
    (hread : fs.ReadFile path = .ok content) :
    (registerFile reg fs protoRoot importToPath fileToImports path s).err = none ∧
      contents (registerFile reg fs protoRoot importToPath fileToImports path s).state =
        contents s := by
  obtain ⟨⟨e, he, h409⟩, hsame⟩ := hreg.create_existing s
    (createReq fs protoRoot importToPath fileToImports path content) hpres
  have hacc : ∀ e1, (reg.CreateArtifact s "default"
      (createReq fs protoRoot importToPath fileToImports path content)).2 = some e1 →
      Contains e1 "409" = true := by
    intro e1 he1
    rw [he] at he1
    exact Option.some.inj he1 ▸ h409
  have hpres1 : present (contents (reg.CreateArtifact s "default"
      (createReq fs protoRoot importToPath fileToImports path content)).1)
      (artifactIDOf (relPathOf fs protoRoot path)) := by
    rw [hsame]
    exact hpres
  obtain ⟨hget, hsame1⟩ := hreg.get_existing _ _ hpres1
  rw [registerFile_accepted reg fs protoRoot importToPath fileToImports path content s hread hacc,
    maxRetriesVerify, verifyLoop_succ_none reg _ 4 _ none hget]
  exact ⟨rfl, by rw [hsame1, hsame]⟩

theorem registerFiles_existing {σ κ : Type} (reg : Registry σ) (contents : σ → κ)
    (present : κ → String → Prop) (hreg : IdempotentRegistry reg contents present)
    (fs : FileSystem) (protoRoot : String) (importToPath : GoMap String)
    (fileToImports : GoMap (List String)) (order : List String) (s : σ)
    (hall : ∀ path, path ∈ order →
      present (contents s) (artifactIDOf (relPathOf fs protoRoot path)) ∧
      ∃ content, fs.ReadFile path = .ok content) :
    (registerFiles reg fs protoRoot importToPath fileToImports order s).err = none ∧
      contents (registerFiles reg fs protoRoot importToPath fileToImports order s).state =
        contents s := by
  induction order generalizing s with
  | nil => exact ⟨rfl, rfl⟩
  | cons p rest ih =>
    obtain ⟨hpres, content, hread⟩ := hall p (List.mem_cons_self _ _)
    obtain ⟨herr, hsame⟩ := registerFile_existing reg contents present hreg fs protoRoot
      importToPath fileToImports p content s hpres hread
    rw [registerFiles_cons_ok reg fs protoRoot importToPath fileToImports p rest s herr]
    simp only
    obtain ⟨herr2, hsame2⟩ := ih
      (registerFile reg fs protoRoot importToPath fileToImports p s).state (by
        intro path hpath
        rw [hsame]
        exact hall path (List.mem_cons_of_mem _ hpath))
    exact ⟨herr2, by rw [hsame2, hsame]⟩

theorem memRegistry_idempotent :
    IdempotentRegistry memRegistry (fun s => s) (fun held artifactID => artifactID ∈ held) where
  create_existing := by
    intro s req h
    have h409 : Contains "409 Conflict: artifact already exists" "409" = true := by decide
    simp [memRegistry, h, h409]
  get_existing := by
    intro s artifactID h
    simp [memRegistry, h]
  get_shows := by
    intro s artifactID h
    by_cases hin : artifactID ∈ s
    · simp [memRegistry, hin]
    · simp [memRegistry, hin] at h
  create_keeps := by
    intro s req artifactID h
    by_cases hin : req.ArtifactID ∈ s
    · simpa [memRegistry, hin] using h
    · simp only [memRegistry, hin, if_false, List.mem_append]
      exact Or.inl h
  get_keeps := by
    intro s other artifactID h
    by_cases hin : other ∈ s
    · simpa [memRegistry, hin] using h
    · simpa [memRegistry, hin] using h

/-- C10: for a registry in which creating an existing identifier returns the conflict signal
and changes nothing, reading an existing identifier succeeds and changes nothing, a successful
read shows the identifier to exist and identifiers are never removed: after a run that returned
no error, a second run on the same file tree, from the registry state the first run left and
whatever order its `range` yields, returns no error and leaves the registry contents as the
first run left them. -/
theorem second_run_is_idempotent {σ κ : Type} (reg : Registry σ) (contents : σ → κ)
    (present : κ → String → Prop) (hreg : IdempotentRegistry reg contents present)
    (fs : FileSystem) (range range2 : MapRange) (protoRoot : String) (s : σ)
    (run : RunResult σ)
    (hrun : RegisterProtoArtifacts (some reg) fs range protoRoot s = some run)
    (hok : run.err = none) :
    ∃ run2, RegisterProtoArtifacts (some reg) fs range2 protoRoot run.state = some run2 ∧
      run2.err = none ∧ contents run2.state = contents run.state := by
  cases hscan : scanProtoFiles fs protoRoot with
  | error e =>
    simp only [RegisterProtoArtifacts, ParseProtoFiles_error fs range protoRoot e hscan,
      Option.some.injEq] at hrun
    rw [← hrun] at hok
    simp at hok
  | ok st =>
    obtain ⟨order, hparse, -, hmem, -⟩ := ParseProtoFiles_ok fs range protoRoot st hscan
    obtain ⟨order2, hparse2, -, hmem2, -⟩ := ParseProtoFiles_ok fs range2 protoRoot st hscan
    simp only [RegisterProtoArtifacts, hparse, Option.some.injEq] at hrun
    subst hrun
    obtain ⟨-, hshow⟩ := registerFiles_shows reg contents present hreg fs protoRoot
      st.importToPath st.fileToImports order s hok
    obtain ⟨herr2, hsame2⟩ := registerFiles_existing reg contents present hreg fs protoRoot
      st.importToPath st.fileToImports order2
      (registerFiles reg fs protoRoot st.importToPath st.fileToImports order s).state
      (fun path hpath => hshow path ((hmem path).2 ((hmem2 path).1 hpath)))
    refine ⟨_, ?_, herr2, hsame2⟩
    simp [RegisterProtoArtifacts, hparse2]

theorem second_run_is_idempotent_witness :
    (RegisterProtoArtifacts (some memRegistry) baseChildTree reversedOrder "/r" []).map
        (fun run => (run.state, run.err)) = some (["base", "child"], none) ∧
      ∃ run2, RegisterProtoArtifacts (some memRegistry) baseChildTree storedOrder "/r"
          (registerFiles memRegistry baseChildTree "/r" baseChildPaths baseChildImports
            ["/r/base.proto", "/r/child.proto"] []).state = some run2 ∧
        run2.err = none ∧
        (fun s => s) run2.state = (fun s => s)
          (registerFiles memRegistry baseChildTree "/r" baseChildPaths baseChildImports
            ["/r/base.proto", "/r/child.proto"] []).state :=
  ⟨by rfl, second_run_is_idempotent memRegistry (fun s => s)
    (fun held artifactID => artifactID ∈ held) memRegistry_idempotent baseChildTree reversedOrder
    storedOrder "/r" []
    (registerFiles memRegistry baseChildTree "/r" baseChildPaths baseChildImports
      ["/r/base.proto", "/r/child.proto"] []) (by rfl) (by rfl)⟩

end ProtoRegistry
